import Mathlib

/-!
# Entity store and automation dispatch

A shallow embedding of `src/server.js` (class `MemStorage`), of the `/run`
handler of `src/automation-routes.js` and of the post variants of
`src/instagram-automation.js`, followed by the properties proved about them.

Modelling conventions.

* A JavaScript value is a `JSValue`.  Numbers are the integers (identities
  and counters are integers in the program; `NaN` and fractions do not occur).
  The numbers of `shortcodeToMediaId` are doubles with integer values, a
  `JSNumber`: arithmetic rounds to 53 significant bits.
* The HTTP client is a parameter (`Axios`); a variant returns its outcome
  together with the requests that it made.
* A JavaScript object is a `JSObject`: its own properties in insertion order.
* A JavaScript `Map` is a `JSMap`: its entries in insertion order.
* `MemStorage` methods become functions from a store state to a new store
  state and a result.  The clock reading `new Date().toISOString()` and the
  library function `new Date(v).getTime()` are taken as parameters.
* `async` methods are run to completion one after another.
-/

namespace IgBoost

/-! ## JavaScript values, objects and maps -/

/-- A primitive JavaScript value. -/
inductive JSValue where
  | undefined
  | null
  | bool (b : Bool)
  | num (n : Int)
  | str (s : String)
  deriving DecidableEq, Repr, Inhabited

namespace JSValue

/-- ToBoolean: the truthiness test of `if (v)`, `!v`, `v || w` and `v ? a : b`. -/
def truthy : JSValue → Bool
  | undefined => false
  | null => false
  | bool b => b
  | num n => n != 0
  | str s => s != ""

/-- ToString, as used by template literals. -/
def toStr : JSValue → String
  | undefined => "undefined"
  | null => "null"
  | bool true => "true"
  | bool false => "false"
  | num n => toString n
  | str s => s

/-- The operator `a === b` on primitive values. -/
def strictEq (a b : JSValue) : Bool := decide (a = b)

/-- The operator `a || b`. -/
def or (a b : JSValue) : JSValue := if a.truthy then a else b

end JSValue

/-- An object: its own properties, in insertion order. -/
abbrev JSObject := List (String × JSValue)

namespace JSObject

/-- Property read `o.k`; an absent property reads as `undefined`. -/
def get (o : JSObject) (k : String) : JSValue :=
  match o with
  | [] => JSValue.undefined
  | (k', v) :: rest => if k' = k then v else get rest k

/-- Property write `o.k = v`: an existing property keeps its place. -/
def set (o : JSObject) (k : String) (v : JSValue) : JSObject :=
  match o with
  | [] => [(k, v)]
  | (k', v') :: rest => if k' = k then (k, v) :: rest else (k', v') :: set rest k v

/-- Object spread: `spread base ext` copies the properties of `ext` over `base`. -/
def spread (base ext : JSObject) : JSObject :=
  ext.foldl (fun acc kv => set acc kv.1 kv.2) base

end JSObject

/-- A `Map` from values to records: its entries, in insertion order. -/
abbrev JSMap := List (JSValue × JSObject)

namespace JSMap

/-- The lookup `Map.prototype.get`; `none` is the `undefined` of a missing key. -/
def get (m : JSMap) (k : JSValue) : Option JSObject :=
  match m with
  | [] => none
  | (k', v) :: rest => if k' = k then some v else get rest k

/-- The update `Map.prototype.set`: an existing key keeps its place, a new key
goes to the end. -/
def set (m : JSMap) (k : JSValue) (v : JSObject) : JSMap :=
  match m with
  | [] => [(k, v)]
  | (k', v') :: rest => if k' = k then (k, v) :: rest else (k', v') :: set rest k v

/-- The removal `Map.prototype.delete`. -/
def delete (m : JSMap) (k : JSValue) : JSMap :=
  m.filter (fun e => !decide (e.1 = k))

/-- The records of `Array.from(map.values())`. -/
def values (m : JSMap) : List JSObject := m.map Prod.snd

end JSMap

/-! ## Arrays -/

/-- Insert `x` into a list ordered by the comparator: `x` goes before the first
element that it does not have to follow (a comparator result that is not
positive, `NaN` counting as zero). -/
def sortInsert {α : Type} (cmp : α → α → Option Int) (x : α) : List α → List α
  | [] => [x]
  | y :: ys =>
    match cmp x y with
    | some v => if v ≤ 0 then x :: y :: ys else y :: sortInsert cmp x ys
    | none => x :: y :: ys

/-- The call `Array.prototype.sort(cmp)`, a stable sort.  The comparator returns
a number, `none` standing for `NaN`. -/
def arraySort {α : Type} (cmp : α → α → Option Int) : List α → List α
  | [] => []
  | x :: xs => sortInsert cmp x (arraySort cmp xs)

/-- The call `Array.prototype.slice(0, end)`: a negative `end` counts back from
the last element of the array. -/
def arraySlice0 {α : Type} (l : List α) (e : Int) : List α :=
  if e < 0 then l.take (l.length - e.natAbs) else l.take e.toNat

/-! ## The store (`class MemStorage`) -/

/-- The fields of a `MemStorage` instance: four tables and their identity
counters.  (The session store plays no part in the entity operations.) -/
structure MemStorage where
  users : JSMap
  instagramAccounts : JSMap
  cookies : JSMap
  activityLogs : JSMap
  userId : Nat
  accountId : Nat
  cookieId : Nat
  logId : Nat
  deriving DecidableEq, Repr

/-- An exception thrown by a method. -/
inductive JSError where
  | referenceError (msg : String)
  | typeError (msg : String)
  | error (msg : String)
  deriving DecidableEq, Repr

namespace MemStorage

/-- The state set up by the constructor before `createAdminUser` runs. -/
def new : MemStorage :=
  { users := [], instagramAccounts := [], cookies := [], activityLogs := [],
    userId := 1, accountId := 1, cookieId := 1, logId := 1 }

def getUser (s : MemStorage) (id : JSValue) : Option JSObject :=
  s.users.get id

/-- The record built by `{ ...data, id, createdAt: now, updatedAt: now }`. -/
def stamp (data : JSObject) (id : Nat) (now : String) : JSObject :=
  (((JSObject.spread [] data).set "id" (.num id)).set "createdAt" (.str now)).set
    "updatedAt" (.str now)

def createUser (s : MemStorage) (now : String) (userData : JSObject) :
    MemStorage × JSObject :=
  let id := s.userId
  let user := stamp userData id now
  ({ s with userId := s.userId + 1, users := s.users.set (.num id) user }, user)

def getAllUsers (s : MemStorage) : List JSObject :=
  s.users.values

def getInstagramAccount (s : MemStorage) (id : JSValue) : Option JSObject :=
  s.instagramAccounts.get id

def getInstagramAccounts (s : MemStorage) (userId : JSValue) : List JSObject :=
  s.instagramAccounts.values.filter (fun account => (account.get "userId").strictEq userId)

/-- The counter is advanced into a constant that is never read, and the record
literal then reads the variable `id`, which is declared nowhere in scope: the
method throws a `ReferenceError` before anything is stored. -/
def createInstagramAccount (s : MemStorage) (_now : String) (_account : JSObject) :
    MemStorage × Except JSError JSObject :=
  ({ s with accountId := s.accountId + 1 },
    .error (.referenceError "id is not defined"))

def getCookie (s : MemStorage) (id : JSValue) : Option JSObject :=
  s.cookies.get id

def deleteCookie (s : MemStorage) (id : JSValue) : MemStorage :=
  { s with cookies := s.cookies.delete id }

def deleteInstagramAccount (s : MemStorage) (id : JSValue) : MemStorage :=
  let accountCookies :=
    s.cookies.values.filter (fun cookie => (cookie.get "accountId").strictEq id)
  let s1 := accountCookies.foldl (fun st cookie => st.deleteCookie (cookie.get "id")) s
  { s1 with instagramAccounts := s1.instagramAccounts.delete id }

def getCookiesByUserId (s : MemStorage) (userId : JSValue) : List JSObject :=
  let accounts := s.getInstagramAccounts userId
  let accountIds := accounts.map (fun account => account.get "id")
  s.cookies.values.filter
    (fun cookie => accountIds.any (fun a => decide (a = cookie.get "accountId")))

def createCookie (s : MemStorage) (now : String) (cookie : JSObject) :
    MemStorage × JSObject :=
  let id := s.cookieId
  let newCookie := stamp cookie id now
  ({ s with cookieId := s.cookieId + 1, cookies := s.cookies.set (.num id) newCookie },
    newCookie)

def getActivityLog (s : MemStorage) (id : JSValue) : Option JSObject :=
  s.activityLogs.get id

/-- The comparator of the log listing:
`new Date(b.createdAt).getTime() - new Date(a.createdAt).getTime()`, where
`getTime v` is `new Date(v).getTime()` and `none` is `NaN`. -/
def logCompare (getTime : JSValue → Option Int) (a b : JSObject) : Option Int :=
  match getTime (b.get "createdAt"), getTime (a.get "createdAt") with
  | some tb, some ta => some (tb - ta)
  | _, _ => none

/-- The listing of a user's logs; `limit` is `none` when the argument is not
supplied (or is `NaN`, which is as falsy as `undefined`). -/
def getActivityLogsByUserId (s : MemStorage) (getTime : JSValue → Option Int)
    (userId : JSValue) (limit : Option Int) : List JSObject :=
  let logs := arraySort (logCompare getTime)
    (s.activityLogs.values.filter (fun log => (log.get "userId").strictEq userId))
  match limit with
  | some n => if n != 0 then arraySlice0 logs n else logs
  | none => logs

def deleteUser (s : MemStorage) (getTime : JSValue → Option Int) (id : JSValue) :
    MemStorage :=
  let accounts := s.getInstagramAccounts id
  let s1 := accounts.foldl (fun st account => st.deleteInstagramAccount (account.get "id")) s
  let logs := s1.getActivityLogsByUserId getTime id none
  let s2 := logs.foldl
    (fun st log => { st with activityLogs := st.activityLogs.delete (log.get "id") }) s1
  { s2 with users := s2.users.delete id }

def createActivityLog (s : MemStorage) (now : String) (log : JSObject) :
    MemStorage × JSObject :=
  let id := s.logId
  let newLog := stamp log id now
  ({ s with logId := s.logId + 1, activityLogs := s.activityLogs.set (.num id) newLog },
    newLog)

def updateActivityLog (s : MemStorage) (now : String) (id : JSValue) (updates : JSObject) :
    MemStorage × Except JSError JSObject :=
  match s.activityLogs.get id with
  | none => (s, .error (.error ("Activity log with ID " ++ id.toStr ++ " not found")))
  | some log =>
    let updatedLog := ((JSObject.spread [] log).spread updates).set "updatedAt" (.str now)
    ({ s with activityLogs := s.activityLogs.set id updatedLog }, .ok updatedLog)

end MemStorage

/-! ## The automation module and the `/run` handler (`automation-routes.js`) -/

/-- The outcome record of an action variant, with its fields `success`,
`message` and the optional `data`. -/
structure Outcome where
  success : Bool
  message : String
  data : Option JSObject := none
  deriving DecidableEq, Repr

/-- The functions of `instagram-automation.js` that the handler calls, each
taken as an arbitrary function of its arguments that returns an outcome. -/
structure IgAutomation where
  followUser : JSValue → JSValue → Outcome
  unfollowUser : JSValue → JSValue → Outcome
  likePost : JSValue → JSValue → Outcome
  unlikePost : JSValue → JSValue → Outcome
  commentPost : JSValue → JSValue → JSValue → Outcome
  deleteComment : JSValue → JSValue → JSValue → Outcome
  getInstagramProfileInfo : JSValue → JSValue → Outcome
  removeDuplicateAccounts : JSValue → Outcome

/-- The property `error.message` of a caught exception. -/
def JSError.message : JSError → String
  | .referenceError m => m
  | .typeError m => m
  | .error m => m

/-- The JSON body of a response. -/
inductive ResBody where
  | message (m : String)
  | result (r : Outcome)
  | failure (message err : String)
  deriving DecidableEq, Repr

/-- A response: `res.status(c).json(b)`; `res.json(b)` alone has status 200. -/
structure Response where
  status : Nat
  body : ResBody
  deriving DecidableEq, Repr

/-- What the handler does to the outside, in order: a log row inserted, an action
variant called (with the outcome it returned), a log row updated. -/
inductive Event where
  | createActivityLog (row : JSObject)
  | call (fn : String) (args : List JSValue) (result : Outcome)
  | updateActivityLog (id : JSValue) (updates : JSObject)
  deriving DecidableEq, Repr

/-- The statements every case of the switch runs once its parameters are
accepted: set `logEntry.action`, insert the log row, call the variant, update
the row by the id that the insertion returned.  An exception of the update goes
to the handler's `catch`. -/
def runLogged (s : MemStorage) (now1 now2 : String) (logEntry : JSObject) (action : String)
    (fn : String) (args : List JSValue) (result : Outcome) :
    MemStorage × Response × List Event :=
  let logEntry := logEntry.set "action" (.str action)
  let created := s.createActivityLog now1 logEntry
  let activityLog := created.2
  let updates : JSObject := [("status", .str (if result.success then "success" else "failed"))]
  let updated := created.1.updateActivityLog now2 (activityLog.get "id") updates
  match updated.2 with
  | .ok _ =>
    (updated.1, { status := 200, body := .result result },
      [.createActivityLog activityLog, .call fn args result,
        .updateActivityLog (activityLog.get "id") updates])
  | .error e =>
    (updated.1, { status := 500, body := .failure "Error running automation" e.message },
      [.createActivityLog activityLog, .call fn args result])

/-- The handler of `POST /run` for an authenticated request: `userId` is
`req.user.id`, `body` is `req.body`, `now1` and `now2` are the clock readings of
the insertion and of the update. -/
def postRun (ig : IgAutomation) (s : MemStorage) (userId : JSValue) (body : JSObject)
    (now1 now2 : String) : MemStorage × Response × List Event :=
  let type := body.get "type"
  let username := body.get "username"
  let postUrl := body.get "postUrl"
  let commentText := body.get "commentText"
  let commentId := body.get "commentId"
  match s.getCookiesByUserId userId with
  | [] =>
    (s, { status := 400,
          body := .message "No cookies available. Please add an account first." }, [])
  | cookie0 :: _ =>
    let cookieValue := cookie0.get "cookieValue"
    let logEntry : JSObject :=
      [("userId", userId), ("type", type),
        ("accountUsername", username.or (.str "Unknown")),
        ("action", .str "Pending"), ("status", .str "pending")]
    if type = .str "follow" then
      if !username.truthy then
        (s, { status := 400, body := .message "Username is required" }, [])
      else
        runLogged s now1 now2 logEntry ("Followed @" ++ username.toStr)
          "followUser" [username, cookieValue] (ig.followUser username cookieValue)
    else if type = .str "unfollow" then
      if !username.truthy then
        (s, { status := 400, body := .message "Username is required" }, [])
      else
        runLogged s now1 now2 logEntry ("Unfollowed @" ++ username.toStr)
          "unfollowUser" [username, cookieValue] (ig.unfollowUser username cookieValue)
    else if type = .str "like" then
      if !postUrl.truthy then
        (s, { status := 400, body := .message "Post URL is required" }, [])
      else
        runLogged s now1 now2 logEntry ("Liked post: " ++ postUrl.toStr)
          "likePost" [postUrl, cookieValue] (ig.likePost postUrl cookieValue)
    else if type = .str "unlike" then
      if !postUrl.truthy then
        (s, { status := 400, body := .message "Post URL is required" }, [])
      else
        runLogged s now1 now2 logEntry ("Unliked post: " ++ postUrl.toStr)
          "unlikePost" [postUrl, cookieValue] (ig.unlikePost postUrl cookieValue)
    else if type = .str "comment" then
      if !postUrl.truthy || !commentText.truthy then
        (s, { status := 400, body := .message "Post URL and comment text are required" }, [])
      else
        runLogged s now1 now2 logEntry ("Commented on post: " ++ postUrl.toStr)
          "commentPost" [postUrl, commentText, cookieValue]
          (ig.commentPost postUrl commentText cookieValue)
    else if type = .str "delete_comment" then
      if !commentId.truthy then
        (s, { status := 400, body := .message "Comment ID is required" }, [])
      else
        runLogged s now1 now2 logEntry ("Deleted comment: " ++ commentId.toStr)
          "deleteComment" [postUrl.or (.str ""), commentId, cookieValue]
          (ig.deleteComment (postUrl.or (.str "")) commentId cookieValue)
    else if type = .str "profile_info" then
      if !username.truthy then
        (s, { status := 400, body := .message "Username is required" }, [])
      else
        runLogged s now1 now2 logEntry ("Retrieved profile info: @" ++ username.toStr)
          "getInstagramProfileInfo" [username, cookieValue]
          (ig.getInstagramProfileInfo username cookieValue)
    else if type = .str "duplicates" then
      runLogged s now1 now2 logEntry "Removed duplicate accounts"
        "removeDuplicateAccounts" [cookieValue] (ig.removeDuplicateAccounts cookieValue)
    else
      (s, { status := 200,
            body := .result { success := false, message := "Unknown automation type" } }, [])

/-- The parameters that the switch of the handler requires for each action
kind that it has a case for; `none` for a kind that it has no case for. -/
def requiredParams (type : String) : Option (List String) :=
  if type = "follow" then some ["username"]
  else if type = "unfollow" then some ["username"]
  else if type = "like" then some ["postUrl"]
  else if type = "unlike" then some ["postUrl"]
  else if type = "comment" then some ["postUrl", "commentText"]
  else if type = "delete_comment" then some ["commentId"]
  else if type = "profile_info" then some ["username"]
  else if type = "duplicates" then some []
  else none

/-! ## Numbers (`instagram-automation.js` computes with JavaScript numbers) -/

/-- The number of halvings that bring `n` below `2 ^ 53`; the first argument
bounds the count and `n` itself is always enough. -/
def excessBits : Nat → Nat → Nat
  | 0, _ => 0
  | fuel + 1, n => if n < 2 ^ 53 then 0 else 1 + excessBits fuel (n / 2)

/-- The double nearest to a natural number: a number below `2 ^ 53` is a double,
a larger one is rounded to 53 significant bits, a tie going to the even
significand. -/
def roundDouble (n : Nat) : Nat :=
  if n < 2 ^ 53 then n
  else
    let e := excessBits n n
    let q := n / 2 ^ e
    let r := n % 2 ^ e
    let half := 2 ^ (e - 1)
    if r < half then q * 2 ^ e
    else if r = half then (if q % 2 = 0 then q else q + 1) * 2 ^ e
    else (q + 1) * 2 ^ e

/-- A number with an integer value, or an infinity. -/
inductive JSNumber where
  | finite (v : Int)
  | infinite (negative : Bool)
  deriving DecidableEq, Repr

/-- The integers that `Number.prototype.toString` tries for the double `v`:
for each count of significant digits, from one up to the digits of `v`, the two
integers of that many significant digits around `v`, the nearer one first (the
one with the even last digit on a tie). -/
def shortestCandidates (v : Nat) : List Nat :=
  (List.range (Nat.toDigits 10 v).length).flatMap fun i =>
    let u := 10 ^ ((Nat.toDigits 10 v).length - (i + 1))
    let lo := v / u * u
    let hi := lo + u
    if v - lo < hi - v then [lo, hi]
    else if hi - v < v - lo then [hi, lo]
    else if (v / u) % 2 = 0 then [lo, hi] else [hi, lo]

/-- The integer with the fewest significant digits that reads back as the
double `v`. -/
def shortestRoundTrip (v : Nat) : Nat :=
  match (shortestCandidates v).find? (fun w => roundDouble w == v) with
  | some w => w
  | none => v

/-- The exponent form of `Number.prototype.toString` for an integer of more
than 21 digits, given by its decimal digits: the digits up to the last one that
is not zero, a point after the first, and the exponent. -/
def exponentForm (digits : List Char) : String :=
  let s := (digits.reverse.dropWhile (fun c => c == '0')).reverse
  match s with
  | [] => "0"
  | [d] => String.mk [d] ++ "e+" ++ Nat.repr (digits.length - 1)
  | d :: rest => String.mk (d :: '.' :: rest) ++ "e+" ++ Nat.repr (digits.length - 1)

/-- The call `Number.prototype.toString()`, for the numbers of this model. -/
def numberToString : JSNumber → String
  | .infinite false => "Infinity"
  | .infinite true => "-Infinity"
  | .finite v =>
    let w := shortestRoundTrip v.natAbs
    let body := if w < 10 ^ 21 then Nat.repr w else exponentForm (Nat.toDigits 10 w)
    if v < 0 then "-" ++ body else body

/-! ## The automation module (`instagram-automation.js`) -/

/-- The constant `alphabet` of `shortcodeToMediaId`. -/
def alphabet : List Char :=
  "ABCDEFGHIJKLMNOPQRSTUVWXYZabcdefghijklmnopqrstuvwxyz0123456789-_".toList

/-- The call `alphabet.indexOf(c)` for a single character `c`: its place in the
alphabet, or -1. -/
def alphabetIndexOf (c : Char) : Int :=
  if alphabet.indexOf c < alphabet.length then (alphabet.indexOf c : Int) else -1

/-- One turn of the loop of `shortcodeToMediaId`:
`mediaId = mediaId * 64 + alphabet.indexOf(c)`.  The product by 64 is exact, the
sum is rounded to a double, and a result out of the range of doubles is an
infinity. -/
def mediaIdStep : JSNumber → Char → JSNumber
  | .infinite negative, _ => .infinite negative
  | .finite mediaId, c =>
    let exact := mediaId * 64 + alphabetIndexOf c
    let r := roundDouble exact.natAbs
    if 2 ^ 1024 ≤ r then .infinite (decide (exact < 0))
    else .finite (if exact < 0 then -(r : Int) else (r : Int))

def shortcodeToMediaId (shortcode : String) : String :=
  numberToString (shortcode.toList.foldl mediaIdStep (.finite 0))

/-- The value that the specification gives to a list of digits: the sum over the
positions of the digit times 64 to the power of the position, the first digit
being the most significant. -/
def positionalSum : List Nat → Nat
  | [] => 0
  | d :: ds => d * 64 ^ ds.length + positionalSum ds

/-- The digit value of a character: its index in the alphabet. -/
def digitValue (c : Char) : Nat := alphabet.indexOf c

/-! ### Strings -/

/-- The scan of `String.prototype.split(sep)` for a separator that is not
empty.  `skip` counts the characters of a separator just found that are still
to be passed over; `cur` holds the piece being read, its last character
first. -/
def splitScan (sep : List Char) : List Char → Nat → List Char → List (List Char)
  | [], _, cur => [cur.reverse]
  | _ :: cs, skip + 1, cur => splitScan sep cs skip cur
  | c :: cs, 0, cur =>
    if sep.isPrefixOf (c :: cs) then cur.reverse :: splitScan sep cs (sep.length - 1) []
    else splitScan sep cs 0 (c :: cur)

/-- The call `s.split(sep)`. -/
def jsSplit (s sep : List Char) : List (List Char) := splitScan sep s 0 []

/-- The call `s.includes(sep)`. -/
def jsIncludes (sep : List Char) : List Char → Bool
  | [] => sep.isEmpty
  | c :: cs => sep.isPrefixOf (c :: cs) || jsIncludes sep cs

/-- The white space and line terminators that `String.prototype.trim`
removes. -/
def isWhiteSpace (c : Char) : Bool :=
  c.toNat ∈ [0x09, 0x0A, 0x0B, 0x0C, 0x0D, 0x20, 0xA0, 0x1680, 0x2028, 0x2029, 0x202F,
    0x205F, 0x3000, 0xFEFF] || (0x2000 ≤ c.toNat && c.toNat ≤ 0x200A)

/-- The call `s.trim()`. -/
def jsTrim (s : List Char) : List Char :=
  ((s.dropWhile isWhiteSpace).reverse.dropWhile isWhiteSpace).reverse

/-- The exception of a call `v.split(...)` on a value that is not a string, with
the message that V8 gives it; `name` is the text of the receiver in the
source. -/
def splitTypeError (name : String) : JSValue → JSError
  | .undefined => .typeError "Cannot read properties of undefined (reading 'split')"
  | .null => .typeError "Cannot read properties of null (reading 'split')"
  | _ => .typeError (name ++ ".split is not a function")

/-! ### Cookies and shortcodes -/

/-- The function `parseCookieString`: the pieces between `"; "`, each cut at its
`=` signs into a key and a value; a piece with both gives the trimmed key the
trimmed value. -/
def parseCookieString : JSValue → Except JSError JSObject
  | .str cookieStr =>
    .ok ((jsSplit cookieStr.toList "; ".toList).foldl
      (fun cookies part =>
        match jsSplit part "=".toList with
        | key :: value :: _ =>
          if key ≠ [] ∧ value ≠ [] then
            cookies.set (String.mk (jsTrim key)) (.str (String.mk (jsTrim value)))
          else cookies
        | _ => cookies)
      [])
  | v => .error (splitTypeError "cookieStr" v)

/-- The expression `postUrl.split('/p/')[1].split('/')[0].split('?')[0]` with
which `likePost`, `unlikePost` and `commentPost` read the shortcode.  It throws
when `postUrl` is not a string and when the first split has no element 1. -/
def extractShortcode : JSValue → Except JSError String
  | .str postUrl =>
    match (jsSplit postUrl.toList "/p/".toList).get? 1 with
    | none => .error (splitTypeError "postUrl.split(...)[1]" .undefined)
    | some part =>
      .ok (String.mk
        ((jsSplit ((jsSplit part "/".toList).headD []) "?".toList).headD []))
  | v => .error (splitTypeError "postUrl" v)

/-! ### The variants that work on a post -/

/-- A request handed to the HTTP client. -/
structure HttpRequest where
  method : String
  url : String
  data : JSObject
  headers : JSObject
  deriving DecidableEq, Repr

/-- The HTTP client: the status of the response, or the message of the error
that the call throws. -/
abbrev Axios := HttpRequest → Except String Int

/-- The headers that the three post variants send. -/
def postHeaders (cookies : JSObject) (postUrl cookieStr : JSValue) : JSObject :=
  [("User-Agent", .str "Mozilla/5.0"),
    ("X-CSRFToken", (cookies.get "csrftoken").or (.str "")),
    ("Referer", postUrl),
    ("Content-Type", .str "application/x-www-form-urlencoded"),
    ("Cookie", cookieStr)]

/-- The common body of `likePost`, `unlikePost` and `commentPost`, which differ
in the address, in the data they post and in the words of their messages.  The
result is the outcome together with the requests made, in order. -/
def postVariant (axios : Axios) (address : String → String) (data : JSObject)
    (errorWords doneWords failedWords : String) (postUrl cookieStr : JSValue) :
    Outcome × List HttpRequest :=
  match parseCookieString cookieStr with
  | .error e => ({ success := false, message := errorWords ++ e.message }, [])
  | .ok cookies =>
    match extractShortcode postUrl with
    | .error _ => ({ success := false, message := "Invalid post URL format" }, [])
    | .ok shortcode =>
      let mediaId := shortcodeToMediaId shortcode
      let request : HttpRequest :=
        { method := "POST", url := address mediaId, data := data,
          headers := postHeaders cookies postUrl cookieStr }
      match axios request with
      | .error msg => ({ success := false, message := errorWords ++ msg }, [request])
      | .ok status =>
        ({ success := status == 200,
           message := if status == 200 then doneWords ++ postUrl.toStr
             else failedWords ++ postUrl.toStr }, [request])

def likePost (axios : Axios) (postUrl cookieStr : JSValue) : Outcome × List HttpRequest :=
  postVariant axios (fun mediaId => "https://www.instagram.com/web/likes/" ++ mediaId ++ "/like/")
    [] "Error liking post: " "Successfully liked post: " "Failed to like post: "
    postUrl cookieStr

def unlikePost (axios : Axios) (postUrl cookieStr : JSValue) : Outcome × List HttpRequest :=
  postVariant axios
    (fun mediaId => "https://www.instagram.com/web/likes/" ++ mediaId ++ "/unlike/")
    [] "Error unliking post: " "Successfully unliked post: " "Failed to unlike post: "
    postUrl cookieStr

def commentPost (axios : Axios) (postUrl commentText cookieStr : JSValue) :
    Outcome × List HttpRequest :=
  postVariant axios
    (fun mediaId => "https://www.instagram.com/web/comments/" ++ mediaId ++ "/add/")
    [("comment_text", commentText)] "Error commenting on post: "
    "Successfully commented on post: " "Failed to comment on post: "
    postUrl cookieStr

def deleteComment (axios : Axios) (postUrl commentId cookieStr : JSValue) :
    Outcome × List HttpRequest :=
  match parseCookieString cookieStr with
  | .error e => ({ success := false, message := "Error deleting comment: " ++ e.message }, [])
  | .ok cookies =>
    let request : HttpRequest :=
      { method := "POST",
        url := "https://www.instagram.com/web/comments/" ++ commentId.toStr ++ "/delete/",
        data := [("comment_id", commentId)],
        headers := postHeaders cookies postUrl cookieStr }
    match axios request with
    | .error msg => ({ success := false, message := "Error deleting comment: " ++ msg }, [request])
    | .ok status =>
      ({ success := status == 200,
         message := if status == 200 then "Successfully deleted comment: " ++ commentId.toStr
           else "Failed to delete comment: " ++ commentId.toStr }, [request])

/-- The placeholder `removeDuplicateAccounts`: it makes no request. -/
def removeDuplicateAccounts (_cookieStr : JSValue) : Outcome × List HttpRequest :=
  ({ success := true, message := "Duplicate account check completed. No duplicates found." },
    [])

/-- The module as the handler requires it, over an HTTP client.  The three
variants that read the profile data of a response (`followUser`, `unfollowUser`
and `getInstagramProfileInfo`) are taken as given. -/
def igAutomation (axios : Axios) (followUser unfollowUser : JSValue → JSValue → Outcome)
    (getInstagramProfileInfo : JSValue → JSValue → Outcome) : IgAutomation :=
  { followUser := followUser
    unfollowUser := unfollowUser
    likePost := fun postUrl cookieStr => (likePost axios postUrl cookieStr).1
    unlikePost := fun postUrl cookieStr => (unlikePost axios postUrl cookieStr).1
    commentPost := fun postUrl commentText cookieStr =>
      (commentPost axios postUrl commentText cookieStr).1
    deleteComment := fun postUrl commentId cookieStr =>
      (deleteComment axios postUrl commentId cookieStr).1
    getInstagramProfileInfo := getInstagramProfileInfo
    removeDuplicateAccounts := fun cookieStr => (removeDuplicateAccounts cookieStr).1 }

/-! ## Sequences of calls -/

/-- The four tables of the store. -/
inductive Table where
  | users
  | instagramAccounts
  | cookies
  | activityLogs
  deriving DecidableEq, Repr

/-- A call of one of the methods of the store that change it. -/
inductive Call where
  | createUser (now : String) (userData : JSObject)
  | deleteUser (id : JSValue)
  | createInstagramAccount (now : String) (account : JSObject)
  | deleteInstagramAccount (id : JSValue)
  | createCookie (now : String) (cookie : JSObject)
  | deleteCookie (id : JSValue)
  | createActivityLog (now : String) (log : JSObject)
  | updateActivityLog (now : String) (id : JSValue) (updates : JSObject)
  deriving DecidableEq, Repr

namespace MemStorage

/-- The identity counter of a table. -/
def counter (s : MemStorage) : Table → Nat
  | .users => s.userId
  | .instagramAccounts => s.accountId
  | .cookies => s.cookieId
  | .activityLogs => s.logId

/-- One call: the store after it and, for a create that returned, the table and
the record that it returned. -/
def call (getTime : JSValue → Option Int) (s : MemStorage) :
    Call → MemStorage × Option (Table × JSObject)
  | .createUser now userData =>
    ((s.createUser now userData).1, some (.users, (s.createUser now userData).2))
  | .deleteUser id => (s.deleteUser getTime id, none)
  | .createInstagramAccount now account =>
    match (s.createInstagramAccount now account).2 with
    | .ok r => ((s.createInstagramAccount now account).1, some (.instagramAccounts, r))
    | .error _ => ((s.createInstagramAccount now account).1, none)
  | .deleteInstagramAccount id => (s.deleteInstagramAccount id, none)
  | .createCookie now cookie =>
    ((s.createCookie now cookie).1, some (.cookies, (s.createCookie now cookie).2))
  | .deleteCookie id => (s.deleteCookie id, none)
  | .createActivityLog now log =>
    ((s.createActivityLog now log).1, some (.activityLogs, (s.createActivityLog now log).2))
  | .updateActivityLog now id updates => ((s.updateActivityLog now id updates).1, none)

/-- A sequence of calls: the store after the last one, and the records that the
creates returned, in the order of the calls. -/
def calls (getTime : JSValue → Option Int) (s : MemStorage) :
    List Call → MemStorage × List (Table × JSObject)
  | [] => (s, [])
  | c :: cs =>
    ((calls getTime (s.call getTime c).1 cs).1,
      (s.call getTime c).2.toList ++ (calls getTime (s.call getTime c).1 cs).2)

/-- The records created in one table, out of the records of a sequence of
calls. -/
def createdIn (T : Table) (created : List (Table × JSObject)) : List JSObject :=
  (created.filter (fun e => decide (e.1 = T))).map Prod.snd

end MemStorage

/-- A table is keyed by id: its keys are distinct and each record is stored
under the value of its own `id` field. -/
def JSMap.KeyedById (m : JSMap) : Prop :=
  (m.map Prod.fst).Nodup ∧ ∀ e ∈ m, e.2.get "id" = e.1

instance (m : JSMap) : Decidable m.KeyedById := by
  unfold JSMap.KeyedById
  infer_instance

/-- The property names of an object are distinct. -/
def JSObject.DistinctKeys (o : JSObject) : Prop := (o.map Prod.fst).Nodup

instance (o : JSObject) : Decidable o.DistinctKeys := by
  unfold JSObject.DistinctKeys
  infer_instance

/-- A call that does not hand an `id` field to `updateActivityLog`. -/
def Call.keepsId : Call → Bool
  | .updateActivityLog _ _ updates => updates.all (fun e => e.1 != "id")
  | _ => true

/-- The cookie `a` has a smaller id than the cookie `b`. -/
def IdBelow (a b : JSObject) : Prop :=
  ∃ i j : Int, a.get "id" = .num i ∧ b.get "id" = .num j ∧ i < j

/-- The log `a` is not older than the log `b`: both have a creation time that
`getTime` can read, and that of `b` is not the later one. -/
def NewestFirst (getTime : JSValue → Option Int) (a b : JSObject) : Prop :=
  ∃ ta tb : Int, getTime (a.get "createdAt") = some ta ∧
    getTime (b.get "createdAt") = some tb ∧ tb ≤ ta

/-! ## Sample data -/

/-- A store with two users.  User 1 owns accounts 1 and 2 with three cookies and
two logs; user 2 owns account 3 with one cookie and one log. -/
def sampleStore : MemStorage :=
  { users := [(.num 1, [("username", .str "ann"), ("id", .num 1)]),
              (.num 2, [("username", .str "bob"), ("id", .num 2)])]
    instagramAccounts :=
      [(.num 1, [("userId", .num 1), ("id", .num 1)]),
       (.num 2, [("userId", .num 1), ("id", .num 2)]),
       (.num 3, [("userId", .num 2), ("id", .num 3)])]
    cookies :=
      [(.num 1, [("accountId", .num 2), ("cookieValue", .str "c1"), ("id", .num 1)]),
       (.num 2, [("accountId", .num 1), ("cookieValue", .str "c2"), ("id", .num 2)]),
       (.num 3, [("accountId", .num 3), ("cookieValue", .str "c3"), ("id", .num 3)]),
       (.num 4, [("accountId", .num 1), ("cookieValue", .str "c4"), ("id", .num 4)])]
    activityLogs :=
      [(.num 1, [("userId", .num 1), ("status", .str "success"), ("id", .num 1),
                 ("createdAt", .str "10")]),
       (.num 2, [("userId", .num 2), ("status", .str "failed"), ("id", .num 2),
                 ("createdAt", .str "20")]),
       (.num 3, [("userId", .num 1), ("status", .str "success"), ("id", .num 3),
                 ("createdAt", .str "30")])]
    userId := 3, accountId := 4, cookieId := 5, logId := 4 }

/-- The value of a decimal numeral, read digit by digit; `none` for the empty
string and for a string with any other character. -/
def decimalValue : List Char → Option Nat
  | [] => none
  | cs => cs.foldl
      (fun acc c => match acc with
        | some n => if c.isDigit then some (10 * n + (c.toNat - 48)) else none
        | none => none)
      (some 0)

/-- A stand-in for `new Date(v).getTime()` on the sample data, whose timestamps
are written as decimal numerals: the numeral of a string, `NaN` for anything
else. -/
def sampleGetTime : JSValue → Option Int
  | .str s => (decimalValue s.data).map Int.ofNat
  | _ => none

/-- A request body that asks to follow alice. -/
def followBody : JSObject := [("type", .str "follow"), ("username", .str "alice")]

/-- A request body that asks to comment on a post with an empty text. -/
def emptyCommentBody : JSObject :=
  [("type", .str "comment"), ("postUrl", .str "https://site/p/ABC123/"),
    ("commentText", .str "")]

/-- A request body of the kind "share", which the switch has no case for. -/
def unknownKindBody : JSObject := [("type", .str "share")]

/-- A request body that asks to like a post at an address without `/p/`. -/
def badLikeBody : JSObject := [("type", .str "like"), ("postUrl", .str "https://site/ABC123/")]

/-- A request body of the kind "dedupe". -/
def dedupeBody : JSObject := [("type", .str "dedupe")]

/-- A request body of the kind "duplicates". -/
def duplicatesBody : JSObject := [("type", .str "duplicates")]

/-- An HTTP client that answers every request with status 200. -/
def sampleAxios : Axios := fun _ => .ok 200

/-- A store built by calls of the store methods, in which the log of user 1,
stored under key 1, was given the id 2 by an update. -/
def crossedStore : MemStorage :=
  (MemStorage.new.calls (fun _ => none)
    [.createUser "t1" [("username", .str "ann")],
      .createUser "t2" [("username", .str "bob")],
      .createActivityLog "t3" [("userId", .num 1), ("status", .str "pending")],
      .createActivityLog "t4" [("userId", .num 2), ("status", .str "pending")],
      .updateActivityLog "t5" (.num 1) [("id", .num 2)]]).1

/-- An update of the status field. -/
def statusUpdate : JSObject := [("status", .str "success")]

/-- Action variants that always report success. -/
def sampleIg : IgAutomation :=
  { followUser := fun _ _ => { success := true, message := "ok" }
    unfollowUser := fun _ _ => { success := true, message := "ok" }
    likePost := fun _ _ => { success := true, message := "ok" }
    unlikePost := fun _ _ => { success := true, message := "ok" }
    commentPost := fun _ _ _ => { success := true, message := "ok" }
    deleteComment := fun _ _ _ => { success := true, message := "ok" }
    getInstagramProfileInfo := fun _ _ => { success := true, message := "ok" }
    removeDuplicateAccounts := fun _ => { success := true, message := "ok" } }

/-- The module over the sample HTTP client. -/
def sampleModule : IgAutomation :=
  igAutomation sampleAxios sampleIg.followUser sampleIg.unfollowUser
    sampleIg.getInstagramProfileInfo

/-! ## Definitions end here; the properties follow -/

/-! ### Maps -/

theorem JSMap.get_delete_self (m : JSMap) (k : JSValue) : (m.delete k).get k = none := by
  induction m with
  | nil => rfl
  | cons e rest ih =>
    obtain ⟨k', v⟩ := e
    by_cases h : k' = k
    · simpa [JSMap.delete, List.filter, h] using ih
    · simpa [JSMap.delete, List.filter, h, JSMap.get] using ih

theorem JSMap.get_delete_of_none (m : JSMap) (j k : JSValue) (h : m.get k = none) :
    (m.delete j).get k = none := by
  induction m with
  | nil => rfl
  | cons e rest ih =>
    obtain ⟨k', v⟩ := e
    by_cases hk : k' = k
    · simp [JSMap.get, hk] at h
    · have hrest : JSMap.get rest k = none := by simpa [JSMap.get, hk] using h
      by_cases hj : k' = j
      · simpa [JSMap.delete, List.filter, hj] using ih hrest
      · simpa [JSMap.delete, List.filter, hj, JSMap.get, hk] using ih hrest

theorem JSMap.mem_delete_of_ne (m : JSMap) (j : JSValue) (e : JSValue × JSObject)
    (he : e ∈ m) (hne : e.1 ≠ j) : e ∈ m.delete j := by
  simp [JSMap.delete, List.mem_filter, he, hne]

theorem JSMap.mem_values_iff (m : JSMap) (v : JSObject) :
    v ∈ m.values ↔ ∃ k, (k, v) ∈ m := by
  simp [JSMap.values]

/-- Deleting the keys named by the `id` fields of a list of records. -/
theorem JSMap.get_foldl_delete_of_none (l : List JSObject) (m : JSMap) (k : JSValue)
    (h : m.get k = none) :
    (l.foldl (fun acc r => acc.delete (r.get "id")) m).get k = none := by
  induction l generalizing m with
  | nil => simpa using h
  | cons r rest ih =>
    simpa using ih (m.delete (r.get "id")) (JSMap.get_delete_of_none m _ k h)

theorem JSMap.get_foldl_delete_of_mem (l : List JSObject) (m : JSMap) (r : JSObject)
    (h : r ∈ l) :
    (l.foldl (fun acc x => acc.delete (x.get "id")) m).get (r.get "id") = none := by
  induction l generalizing m with
  | nil => simp at h
  | cons x rest ih =>
    rcases List.mem_cons.mp h with rfl | hr
    · simpa using JSMap.get_foldl_delete_of_none rest _ _ (JSMap.get_delete_self m _)
    · simpa using ih (m.delete (x.get "id")) hr

/-- A keyed record is still stored, or its key is free: this survives any
deletion. -/
theorem JSMap.present_or_gone_delete (m : JSMap) (j k : JSValue) (v : JSObject)
    (h : m.get k = none ∨ (k, v) ∈ m) :
    (m.delete j).get k = none ∨ (k, v) ∈ m.delete j := by
  rcases h with h | h
  · exact Or.inl (JSMap.get_delete_of_none m j k h)
  · by_cases hkj : k = j
    · subst hkj; exact Or.inl (JSMap.get_delete_self m k)
    · exact Or.inr (JSMap.mem_delete_of_ne m j (k, v) h hkj)

theorem JSMap.present_or_gone_foldl (l : List JSObject) (m : JSMap) (k : JSValue)
    (v : JSObject) (h : m.get k = none ∨ (k, v) ∈ m) :
    (l.foldl (fun acc r => acc.delete (r.get "id")) m).get k = none ∨
      (k, v) ∈ l.foldl (fun acc r => acc.delete (r.get "id")) m := by
  induction l generalizing m with
  | nil => simpa using h
  | cons r rest ih =>
    simpa using ih (m.delete (r.get "id")) (JSMap.present_or_gone_delete m _ k v h)

/-! ### Sorting -/

theorem sortInsert_perm {α : Type} (cmp : α → α → Option Int) (x : α) (l : List α) :
    (sortInsert cmp x l).Perm (x :: l) := by
  induction l with
  | nil => exact List.Perm.refl _
  | cons y ys ih =>
    unfold sortInsert
    cases hc : cmp x y with
    | none => exact List.Perm.refl _
    | some v =>
      by_cases hv : v ≤ 0
      · simp [hv]
      · simp only [hv, if_false]
        exact (List.Perm.cons y ih).trans (List.Perm.swap x y ys)

theorem arraySort_perm {α : Type} (cmp : α → α → Option Int) (l : List α) :
    (arraySort cmp l).Perm l := by
  induction l with
  | nil => exact List.Perm.refl _
  | cons x xs ih =>
    exact (sortInsert_perm cmp x (arraySort cmp xs)).trans (List.Perm.cons x ih)

theorem mem_arraySort {α : Type} (cmp : α → α → Option Int) (l : List α) (x : α) :
    x ∈ arraySort cmp l ↔ x ∈ l :=
  (arraySort_perm cmp l).mem_iff

/-! ### Cascading deletion -/

namespace MemStorage

theorem foldl_deleteCookie (l : List JSObject) (s : MemStorage) :
    l.foldl (fun st cookie => st.deleteCookie (cookie.get "id")) s =
      { s with cookies := l.foldl (fun acc r => acc.delete (r.get "id")) s.cookies } := by
  induction l generalizing s with
  | nil => rfl
  | cons c rest ih => simp only [List.foldl_cons, ih]; rfl

theorem deleteInstagramAccount_eq (s : MemStorage) (id : JSValue) :
    s.deleteInstagramAccount id =
      { s with
        cookies := (s.cookies.values.filter
          (fun cookie => (cookie.get "accountId").strictEq id)).foldl
            (fun acc r => acc.delete (r.get "id")) s.cookies
        instagramAccounts := s.instagramAccounts.delete id } := by
  simp only [deleteInstagramAccount, foldl_deleteCookie]

theorem foldl_deleteLog (l : List JSObject) (s : MemStorage) :
    l.foldl (fun st log => { st with activityLogs := st.activityLogs.delete (log.get "id") }) s =
      { s with activityLogs := l.foldl (fun acc r => acc.delete (r.get "id")) s.activityLogs } := by
  induction l generalizing s with
  | nil => rfl
  | cons c rest ih => simp only [List.foldl_cons, ih]

/-- The accounts loop of `deleteUser` touches neither the users nor the logs. -/
theorem foldl_deleteAccount_frame (l : List JSObject) (s : MemStorage) :
    (l.foldl (fun st a => st.deleteInstagramAccount (a.get "id")) s).users = s.users ∧
    (l.foldl (fun st a => st.deleteInstagramAccount (a.get "id")) s).activityLogs =
      s.activityLogs := by
  induction l generalizing s with
  | nil => exact ⟨rfl, rfl⟩
  | cons a rest ih =>
    simp only [List.foldl_cons]
    refine ⟨(ih _).1.trans ?_, (ih _).2.trans ?_⟩ <;> simp [deleteInstagramAccount_eq]

theorem foldl_deleteAccount_account_none (l : List JSObject) (s : MemStorage) (k : JSValue)
    (h : s.instagramAccounts.get k = none) :
    (l.foldl (fun st a => st.deleteInstagramAccount (a.get "id")) s).instagramAccounts.get k
      = none := by
  induction l generalizing s with
  | nil => simpa using h
  | cons a rest ih =>
    simp only [List.foldl_cons]
    apply ih
    simpa [deleteInstagramAccount_eq] using JSMap.get_delete_of_none _ _ _ h

theorem foldl_deleteAccount_account_mem (l : List JSObject) (s : MemStorage) (a : JSObject)
    (h : a ∈ l) :
    (l.foldl (fun st x => st.deleteInstagramAccount (x.get "id")) s).instagramAccounts.get
      (a.get "id") = none := by
  induction l generalizing s with
  | nil => simp at h
  | cons x rest ih =>
    simp only [List.foldl_cons]
    rcases List.mem_cons.mp h with rfl | hr
    · apply foldl_deleteAccount_account_none
      simpa [deleteInstagramAccount_eq] using JSMap.get_delete_self _ _
    · exact ih _ hr

theorem foldl_deleteAccount_cookie_none (l : List JSObject) (s : MemStorage) (k : JSValue)
    (h : s.cookies.get k = none) :
    (l.foldl (fun st a => st.deleteInstagramAccount (a.get "id")) s).cookies.get k = none := by
  induction l generalizing s with
  | nil => simpa using h
  | cons a rest ih =>
    simp only [List.foldl_cons]
    apply ih
    simpa [deleteInstagramAccount_eq] using JSMap.get_foldl_delete_of_none _ _ _ h

/-- A cookie stored under its own id is removed by the accounts loop as soon as
the loop reaches an account that the cookie refers to. -/
theorem foldl_deleteAccount_cookie (l : List JSObject) (s : MemStorage) (c : JSObject)
    (hc : s.cookies.get (c.get "id") = none ∨ (c.get "id", c) ∈ s.cookies)
    (ha : ∃ a ∈ l, (c.get "accountId").strictEq (a.get "id") = true) :
    (l.foldl (fun st a => st.deleteInstagramAccount (a.get "id")) s).cookies.get (c.get "id")
      = none := by
  induction l generalizing s with
  | nil => simp at ha
  | cons x rest ih =>
    simp only [List.foldl_cons]
    by_cases hx : (c.get "accountId").strictEq (x.get "id") = true
    · apply foldl_deleteAccount_cookie_none
      rcases hc with hc | hc
      · simpa [deleteInstagramAccount_eq] using JSMap.get_foldl_delete_of_none _ _ _ hc
      · have hmem : c ∈ s.cookies.values.filter
            (fun cookie => (cookie.get "accountId").strictEq (x.get "id")) :=
          List.mem_filter.mpr ⟨(JSMap.mem_values_iff _ _).mpr ⟨_, hc⟩, hx⟩
        simpa [deleteInstagramAccount_eq] using JSMap.get_foldl_delete_of_mem _ s.cookies c hmem
    · apply ih
      · simpa [deleteInstagramAccount_eq] using JSMap.present_or_gone_foldl _ _ _ _ hc
      · obtain ⟨a, hal, hac⟩ := ha
        rcases List.mem_cons.mp hal with rfl | hr
        · exact absurd hac hx
        · exact ⟨a, hr, hac⟩

/-- The store after `deleteUser`, table by table. -/
theorem deleteUser_eq (s : MemStorage) (getTime : JSValue → Option Int) (id : JSValue) :
    s.deleteUser getTime id =
      { (s.getInstagramAccounts id).foldl
          (fun st account => st.deleteInstagramAccount (account.get "id")) s with
        activityLogs :=
          (arraySort (logCompare getTime)
            (s.activityLogs.values.filter (fun log => (log.get "userId").strictEq id))).foldl
            (fun acc r => acc.delete (r.get "id")) s.activityLogs
        users := s.users.delete id } := by
  simp only [deleteUser, getActivityLogsByUserId, foldl_deleteLog,
    (foldl_deleteAccount_frame _ _).1, (foldl_deleteAccount_frame _ _).2]

end MemStorage

/-- Claim C1.  On a store whose cookies are stored under their own id, after
`deleteUser U` the user `U` is not found, and neither is any account that `U`
owned, any cookie that referred to one of those accounts, or any activity log
of `U`, when looked up by its old id. -/
theorem deleteUser_removes_dependents (s : MemStorage) (getTime : JSValue → Option Int)
    (U : JSValue) (hkey : ∀ e ∈ s.cookies, e.2.get "id" = e.1) :
    (s.deleteUser getTime U).getUser U = none ∧
    (∀ a ∈ s.getInstagramAccounts U,
      (s.deleteUser getTime U).getInstagramAccount (a.get "id") = none) ∧
    (∀ a ∈ s.getInstagramAccounts U, ∀ c ∈ s.cookies.values,
      (c.get "accountId").strictEq (a.get "id") = true →
        (s.deleteUser getTime U).getCookie (c.get "id") = none) ∧
    (∀ l ∈ s.activityLogs.values, (l.get "userId").strictEq U = true →
      (s.deleteUser getTime U).getActivityLog (l.get "id") = none) := by
  rw [MemStorage.deleteUser_eq]
  refine ⟨?_, ?_, ?_, ?_⟩
  · exact JSMap.get_delete_self _ _
  · intro a ha
    exact MemStorage.foldl_deleteAccount_account_mem _ s a ha
  · intro a ha c hc hca
    obtain ⟨k, hk⟩ := (JSMap.mem_values_iff _ _).mp hc
    have hid : c.get "id" = k := hkey (k, c) hk
    refine MemStorage.foldl_deleteAccount_cookie _ s c (Or.inr ?_) ⟨a, ha, hca⟩
    rw [hid]; exact hk
  · intro l hl hu
    refine JSMap.get_foldl_delete_of_mem _ _ l ?_
    exact (mem_arraySort _ _ _).mpr (List.mem_filter.mpr ⟨hl, hu⟩)

/-- Claim C2.  After `deleteInstagramAccount A`, every cookie whose `accountId`
was `A` is not found under its id, however many there were, and the account
`A` is not found. -/
theorem deleteInstagramAccount_removes_cookies (s : MemStorage) (A : JSValue) :
    (∀ c ∈ s.cookies.values, (c.get "accountId").strictEq A = true →
      (s.deleteInstagramAccount A).getCookie (c.get "id") = none) ∧
    (s.deleteInstagramAccount A).getInstagramAccount A = none := by
  rw [MemStorage.deleteInstagramAccount_eq]
  refine ⟨?_, JSMap.get_delete_self _ _⟩
  intro c hc hca
  exact JSMap.get_foldl_delete_of_mem _ _ c (List.mem_filter.mpr ⟨hc, hca⟩)

/-! ### Objects -/

theorem JSObject.read_set_self (o : JSObject) (k : String) (v : JSValue) :
    (o.set k v).get k = v := by
  induction o with
  | nil => simp [JSObject.set, JSObject.get]
  | cons e rest ih =>
    obtain ⟨k', v'⟩ := e
    by_cases h : k' = k
    · simp [JSObject.set, JSObject.get, h]
    · simp [JSObject.set, JSObject.get, h, ih]

theorem JSObject.read_set_ne (o : JSObject) (k k' : String) (v : JSValue) (h : k ≠ k') :
    (o.set k v).get k' = o.get k' := by
  induction o with
  | nil => simp [JSObject.set, JSObject.get, h]
  | cons e rest ih =>
    obtain ⟨k₀, v₀⟩ := e
    by_cases h0 : k₀ = k
    · subst h0; simp [JSObject.set, JSObject.get, h]
    · by_cases h1 : k₀ = k'
      · subst h1; simp [JSObject.set, JSObject.get, h0]
      · simp [JSObject.set, JSObject.get, h0, h1, ih]

theorem MemStorage.stamp_id (data : JSObject) (id : Nat) (now : String) :
    (MemStorage.stamp data id now).get "id" = .num id := by
  unfold MemStorage.stamp
  rw [JSObject.read_set_ne _ _ _ _ (by decide), JSObject.read_set_ne _ _ _ _ (by decide),
    JSObject.read_set_self]

theorem MemStorage.stamp_createdAt (data : JSObject) (id : Nat) (now : String) :
    (MemStorage.stamp data id now).get "createdAt" = .str now := by
  unfold MemStorage.stamp
  rw [JSObject.read_set_ne _ _ _ _ (by decide), JSObject.read_set_self]

theorem MemStorage.stamp_updatedAt (data : JSObject) (id : Nat) (now : String) :
    (MemStorage.stamp data id now).get "updatedAt" = .str now := by
  unfold MemStorage.stamp
  rw [JSObject.read_set_self]

/-! ### Maps: insertion under a fresh key -/

theorem JSMap.set_of_get_none (m : JSMap) (k : JSValue) (v : JSObject)
    (h : m.get k = none) : m.set k v = m ++ [(k, v)] := by
  induction m with
  | nil => rfl
  | cons e rest ih =>
    obtain ⟨k', v'⟩ := e
    by_cases hk : k' = k
    · simp [JSMap.get, hk] at h
    · have hrest : JSMap.get rest k = none := by simpa [JSMap.get, hk] using h
      simp [JSMap.set, hk, ih hrest]

theorem JSMap.get_append_single (m : JSMap) (k : JSValue) (v : JSObject)
    (h : m.get k = none) : (m ++ [(k, v)]).get k = some v := by
  induction m with
  | nil => simp [JSMap.get]
  | cons e rest ih =>
    obtain ⟨k', v'⟩ := e
    by_cases hk : k' = k
    · simp [JSMap.get, hk] at h
    · have hrest : JSMap.get rest k = none := by simpa [JSMap.get, hk] using h
      simpa [JSMap.get, hk] using ih hrest

theorem JSMap.set_append_single (m : JSMap) (k : JSValue) (v v' : JSObject)
    (h : m.get k = none) : (m ++ [(k, v)]).set k v' = m ++ [(k, v')] := by
  induction m with
  | nil => simp [JSMap.set]
  | cons e rest ih =>
    obtain ⟨k', w⟩ := e
    by_cases hk : k' = k
    · simp [JSMap.get, hk] at h
    · have hrest : JSMap.get rest k = none := by simpa [JSMap.get, hk] using h
      simpa [JSMap.set, hk] using ih hrest

/-! ### The handler -/

/-- On a store whose log counter is not yet a key of the log table, the logged
part of a case inserts one row at the end of the table and updates that row. -/
theorem runLogged_eq (s : MemStorage) (now1 now2 : String) (logEntry : JSObject)
    (action fn : String) (args : List JSValue) (o : Outcome)
    (hfresh : s.activityLogs.get (.num s.logId) = none) :
    runLogged s now1 now2 logEntry action fn args o =
      ({ s with
          logId := s.logId + 1
          activityLogs := s.activityLogs ++ [(.num s.logId,
            ((JSObject.spread []
                (MemStorage.stamp (logEntry.set "action" (.str action)) s.logId now1)).spread
              [("status", .str (if o.success then "success" else "failed"))]).set
              "updatedAt" (.str now2))] },
        { status := 200, body := .result o },
        [.createActivityLog (MemStorage.stamp (logEntry.set "action" (.str action)) s.logId now1),
          .call fn args o,
          .updateActivityLog (.num s.logId)
            [("status", .str (if o.success then "success" else "failed"))]]) := by
  simp only [runLogged, MemStorage.createActivityLog, MemStorage.updateActivityLog,
    MemStorage.stamp_id, JSMap.set_of_get_none _ _ _ hfresh,
    JSMap.get_append_single _ _ _ hfresh, JSMap.set_append_single _ _ _ _ hfresh]

/-- The fields of the row that the logged part of a case inserts, and of the row
after its update to the status `st`. -/
theorem logged_row_fields (userId type accountUsername : JSValue) (action st now1 now2 : String)
    (id : Nat) :
    (MemStorage.stamp
        (JSObject.set
          [("userId", userId), ("type", type), ("accountUsername", accountUsername),
            ("action", .str "Pending"), ("status", .str "pending")]
          "action" (.str action)) id now1).get "userId" = userId ∧
    (MemStorage.stamp
        (JSObject.set
          [("userId", userId), ("type", type), ("accountUsername", accountUsername),
            ("action", .str "Pending"), ("status", .str "pending")]
          "action" (.str action)) id now1).get "status" = .str "pending" ∧
    (((JSObject.spread []
        (MemStorage.stamp
          (JSObject.set
            [("userId", userId), ("type", type), ("accountUsername", accountUsername),
              ("action", .str "Pending"), ("status", .str "pending")]
            "action" (.str action)) id now1)).spread
        [("status", .str st)]).set "updatedAt" (.str now2)).get "id" = .num id ∧
    (((JSObject.spread []
        (MemStorage.stamp
          (JSObject.set
            [("userId", userId), ("type", type), ("accountUsername", accountUsername),
              ("action", .str "Pending"), ("status", .str "pending")]
            "action" (.str action)) id now1)).spread
        [("status", .str st)]).set "updatedAt" (.str now2)).get "userId" = userId ∧
    (((JSObject.spread []
        (MemStorage.stamp
          (JSObject.set
            [("userId", userId), ("type", type), ("accountUsername", accountUsername),
              ("action", .str "Pending"), ("status", .str "pending")]
            "action" (.str action)) id now1)).spread
        [("status", .str st)]).set "updatedAt" (.str now2)).get "status" = .str st := by
  refine ⟨?_, ?_, ?_, ?_, ?_⟩ <;>
    simp [MemStorage.stamp, JSObject.spread, JSObject.set, JSObject.get]

/-- A request of a kind the switch has a case for, with that case's parameters
present and a cookie available, reaches the logged part of its case. -/
theorem postRun_accepted (ig : IgAutomation) (s : MemStorage) (userId : JSValue)
    (body : JSObject) (now1 now2 : String) (t : String) (ps : List String)
    (htype : body.get "type" = .str t) (hknown : requiredParams t = some ps)
    (hparams : ∀ p ∈ ps, (body.get p).truthy = true)
    (hcookies : s.getCookiesByUserId userId ≠ []) :
    ∃ (action fn : String) (args : List JSValue) (o : Outcome),
      postRun ig s userId body now1 now2 =
        runLogged s now1 now2
          [("userId", userId), ("type", body.get "type"),
            ("accountUsername", (body.get "username").or (.str "Unknown")),
            ("action", .str "Pending"), ("status", .str "pending")]
          action fn args o := by
  cases hc : s.getCookiesByUserId userId with
  | nil => exact absurd hc hcookies
  | cons cookie0 rest =>
    unfold requiredParams at hknown
    unfold postRun
    simp only [hc, htype]
    split_ifs at hknown with h1 h2 h3 h4 h5 h6 h7 h8
    all_goals
      simp only [Option.some.injEq] at hknown
      subst hknown
      simp only [List.mem_cons, List.mem_singleton, List.not_mem_nil, or_false, forall_eq,
        forall_eq_or_imp] at hparams
      simp_all
    all_goals exact ⟨_, _, _, _, rfl⟩

/-- Claim C3.  A request whose action kind has a case in the switch, with the
parameters of that case present and a cookie available for the user, on a store
whose log counter is not yet a key of the log table: the handler inserts a row
of the requesting user with status pending, then calls the variant, then
updates that row by its id.  The log table afterwards is the old table followed
by that one row, whose status is success when the outcome of the variant has
`success` true and failed otherwise; the outcome is returned with status 200. -/
theorem postRun_logs_exactly_once (ig : IgAutomation) (s : MemStorage) (userId : JSValue)
    (body : JSObject) (now1 now2 : String) (t : String) (ps : List String)
    (htype : body.get "type" = .str t) (hknown : requiredParams t = some ps)
    (hparams : ∀ p ∈ ps, (body.get p).truthy = true)
    (hcookies : s.getCookiesByUserId userId ≠ [])
    (hfresh : s.getActivityLog (.num s.logId) = none) :
    ∃ (row0 rowF : JSObject) (fn : String) (args : List JSValue) (o : Outcome),
      postRun ig s userId body now1 now2 =
        ({ s with
            logId := s.logId + 1
            activityLogs := s.activityLogs ++ [(.num s.logId, rowF)] },
          { status := 200, body := .result o },
          [.createActivityLog row0, .call fn args o,
            .updateActivityLog (.num s.logId)
              [("status", .str (if o.success then "success" else "failed"))]]) ∧
      row0.get "id" = .num s.logId ∧
      row0.get "userId" = userId ∧
      row0.get "status" = .str "pending" ∧
      rowF.get "id" = .num s.logId ∧
      rowF.get "userId" = userId ∧
      rowF.get "status" = .str (if o.success then "success" else "failed") ∧
      rowF.get "status" ≠ .str "pending" := by
  obtain ⟨action, fn, args, o, h⟩ :=
    postRun_accepted ig s userId body now1 now2 t ps htype hknown hparams hcookies
  rw [h, runLogged_eq _ _ _ _ _ _ _ _ hfresh]
  obtain ⟨h1, h2, h3, h4, h5⟩ := logged_row_fields userId (body.get "type")
    ((body.get "username").or (.str "Unknown")) action
    (if o.success then "success" else "failed") now1 now2 s.logId
  refine ⟨_, _, fn, args, o, rfl, MemStorage.stamp_id _ _ _, h1, h2, h3, h4, h5, ?_⟩
  rw [h5]
  cases o.success <;> simp

/-- Claim C4.  A request whose action kind has required parameters, one of
which is missing or is the empty string, is answered with status 400; no
variant is called and the store, the log table included, is left as it was. -/
theorem postRun_missing_parameter (ig : IgAutomation) (s : MemStorage) (userId : JSValue)
    (body : JSObject) (now1 now2 : String) (t : String) (ps : List String) (p : String)
    (htype : body.get "type" = .str t) (hknown : requiredParams t = some ps)
    (hp : p ∈ ps) (hmissing : body.get p = .undefined ∨ body.get p = .str "") :
    ∃ m : String,
      postRun ig s userId body now1 now2 = (s, { status := 400, body := .message m }, []) := by
  have hfalsy : (body.get p).truthy = false := by
    rcases hmissing with h | h <;> simp [h, JSValue.truthy]
  unfold requiredParams at hknown
  unfold postRun
  cases hc : s.getCookiesByUserId userId with
  | nil => exact ⟨_, rfl⟩
  | cons cookie0 rest =>
    simp only [htype]
    split_ifs at hknown with h1 h2 h3 h4 h5 h6 h7 h8
    all_goals
      simp only [Option.some.injEq] at hknown
      subst hknown
      simp only [List.mem_cons, List.mem_singleton, List.not_mem_nil, or_false] at hp
    all_goals rcases hp with rfl | rfl <;> simp_all

/-- Claim C5.  When the user has no cookie, whatever the request body, the
handler answers with status 400 and a message that contains
"No cookies available"; no variant is called and the store is left as it
was. -/
theorem postRun_no_cookies (ig : IgAutomation) (s : MemStorage) (userId : JSValue)
    (body : JSObject) (now1 now2 : String)
    (hcookies : s.getCookiesByUserId userId = []) :
    ∃ m pre post : String,
      postRun ig s userId body now1 now2 = (s, { status := 400, body := .message m }, []) ∧
      m = pre ++ "No cookies available" ++ post := by
  refine ⟨"No cookies available. Please add an account first.", "",
    ". Please add an account first.", ?_, by decide⟩
  unfold postRun
  simp only [hcookies]

/-- Claim C6, as the handler behaves.  A request whose action kind has no case
in the switch, from a user with a cookie, is answered with status 200 and the
outcome that has `success` false and the message "Unknown automation type"; no
variant is called and the store is left as it was. -/
theorem postRun_unknown_kind (ig : IgAutomation) (s : MemStorage) (userId : JSValue)
    (body : JSObject) (now1 now2 : String)
    (hunknown : ∀ t, body.get "type" = .str t → requiredParams t = none)
    (hcookies : s.getCookiesByUserId userId ≠ []) :
    postRun ig s userId body now1 now2 =
      (s, { status := 200,
            body := .result { success := false, message := "Unknown automation type" } },
        []) := by
  cases hc : s.getCookiesByUserId userId with
  | nil => exact absurd hc hcookies
  | cons cookie0 rest =>
    unfold postRun
    simp only [hc]
    have h1 : body.get "type" ≠ .str "follow" := fun h => by
      simpa [requiredParams] using hunknown _ h
    have h2 : body.get "type" ≠ .str "unfollow" := fun h => by
      simpa [requiredParams] using hunknown _ h
    have h3 : body.get "type" ≠ .str "like" := fun h => by
      simpa [requiredParams] using hunknown _ h
    have h4 : body.get "type" ≠ .str "unlike" := fun h => by
      simpa [requiredParams] using hunknown _ h
    have h5 : body.get "type" ≠ .str "comment" := fun h => by
      simpa [requiredParams] using hunknown _ h
    have h6 : body.get "type" ≠ .str "delete_comment" := fun h => by
      simpa [requiredParams] using hunknown _ h
    have h7 : body.get "type" ≠ .str "profile_info" := fun h => by
      simpa [requiredParams] using hunknown _ h
    have h8 : body.get "type" ≠ .str "duplicates" := fun h => by
      simpa [requiredParams] using hunknown _ h
    simp only [h1, h2, h3, h4, h5, h6, h7, h8, if_false]

/-- Claim C6, as stated, fails: the kind "share" has no case in the switch,
user 1 of the sample store has a cookie, and the answer has status 200, not
400. -/
theorem unknown_kind_answered_200 :
    unknownKindBody.get "type" = .str "share" ∧
    requiredParams "share" = none ∧
    sampleStore.getCookiesByUserId (.num 1) ≠ [] ∧
    (postRun sampleIg sampleStore (.num 1) unknownKindBody "t1" "t2").2.1.status = 200 ∧
    (postRun sampleIg sampleStore (.num 1) unknownKindBody "t1" "t2").2.1.status ≠ 400 := by
  decide

/-! ### Creation -/

theorem JSMap.get_set_self (m : JSMap) (k : JSValue) (v : JSObject) :
    (m.set k v).get k = some v := by
  induction m with
  | nil => simp [JSMap.set, JSMap.get]
  | cons e rest ih =>
    obtain ⟨k', v'⟩ := e
    by_cases h : k' = k
    · simp [JSMap.set, JSMap.get, h]
    · simp [JSMap.set, JSMap.get, h, ih]

/-- The three creates that store a record: each returns a record that carries
the counter of its table as id and both time stamps, and that is found again
under that id. -/
theorem MemStorage.create_stores (s : MemStorage) (now : String) (data : JSObject) :
    ((s.createUser now data).2.get "id" = .num s.userId ∧
      (s.createUser now data).2.get "createdAt" = .str now ∧
      (s.createUser now data).2.get "updatedAt" = .str now ∧
      (s.createUser now data).1.getUser ((s.createUser now data).2.get "id") =
        some (s.createUser now data).2) ∧
    ((s.createCookie now data).2.get "id" = .num s.cookieId ∧
      (s.createCookie now data).2.get "createdAt" = .str now ∧
      (s.createCookie now data).2.get "updatedAt" = .str now ∧
      (s.createCookie now data).1.getCookie ((s.createCookie now data).2.get "id") =
        some (s.createCookie now data).2) ∧
    ((s.createActivityLog now data).2.get "id" = .num s.logId ∧
      (s.createActivityLog now data).2.get "createdAt" = .str now ∧
      (s.createActivityLog now data).2.get "updatedAt" = .str now ∧
      (s.createActivityLog now data).1.getActivityLog
        ((s.createActivityLog now data).2.get "id") = some (s.createActivityLog now data).2) := by
  simp [MemStorage.createUser, MemStorage.createCookie, MemStorage.createActivityLog,
    MemStorage.getUser, MemStorage.getCookie, MemStorage.getActivityLog,
    MemStorage.stamp_id, MemStorage.stamp_createdAt, MemStorage.stamp_updatedAt,
    JSMap.get_set_self]

/-- The account create on any store and any input: it throws, the counter has
advanced, and the account table is as it was. -/
theorem MemStorage.createInstagramAccount_throws (s : MemStorage) (now : String)
    (account : JSObject) :
    (s.createInstagramAccount now account).2 = .error (.referenceError "id is not defined") ∧
    (s.createInstagramAccount now account).1.instagramAccounts = s.instagramAccounts ∧
    (s.createInstagramAccount now account).1.accountId = s.accountId + 1 :=
  ⟨rfl, rfl, rfl⟩

/-- Claim C7 at a failing input.  On the store of the constructor,
`createInstagramAccount` of an account of user 1 does not return a record: it
throws, and no account is found under the identity 1 that the counter held. -/
theorem createInstagramAccount_fails_on_new :
    (MemStorage.new.createInstagramAccount "t1"
        [("userId", .num 1), ("email", .str "a@b.c"), ("active", .bool true)]).2 =
      .error (.referenceError "id is not defined") ∧
    (MemStorage.new.createInstagramAccount "t1"
        [("userId", .num 1), ("email", .str "a@b.c"), ("active", .bool true)]).1.getInstagramAccount
      (.num 1) = none :=
  ⟨rfl, rfl⟩

/-! ### The listing of logs -/

theorem arraySlice0_length_le {α : Type} (l : List α) (n : Int) (hn : 0 ≤ n) :
    ((arraySlice0 l n).length : Int) ≤ n := by
  unfold arraySlice0
  rw [if_neg (by omega)]
  have h : (l.take n.toNat).length ≤ n.toNat := by
    rw [List.length_take]; exact Nat.min_le_left _ _
  omega

/-- Claim C9, as the method behaves.  With a limit `N` of at least 1 the listing
has at most `N` rows. -/
theorem getActivityLogsByUserId_length_le (s : MemStorage) (getTime : JSValue → Option Int)
    (userId : JSValue) (N : Int) (hN : 1 ≤ N) :
    ((s.getActivityLogsByUserId getTime userId (some N)).length : Int) ≤ N := by
  have hne : (N != 0) = true := by simp; omega
  simp only [MemStorage.getActivityLogsByUserId, hne, if_true]
  exact arraySlice0_length_le _ N (by omega)

/-- Claim C9, as stated, fails at the limit 0: user 1 of the sample store has two
logs, and the listing with limit 0 returns both. -/
theorem limit_zero_lists_every_log :
    (sampleStore.getActivityLogsByUserId sampleGetTime (.num 1) (some 0)).length = 2 ∧
    ¬ ((sampleStore.getActivityLogsByUserId sampleGetTime (.num 1) (some 0)).length ≤ 0) := by
  decide

theorem sortInsert_newestFirst (getTime : JSValue → Option Int) (x : JSObject)
    (l : List JSObject)
    (hx : getTime (x.get "createdAt") ≠ none)
    (hl : ∀ y ∈ l, getTime (y.get "createdAt") ≠ none)
    (hs : l.Pairwise (NewestFirst getTime)) :
    (sortInsert (MemStorage.logCompare getTime) x l).Pairwise (NewestFirst getTime) := by
  obtain ⟨tx, htx⟩ := Option.ne_none_iff_exists'.mp hx
  induction l with
  | nil => simp [sortInsert]
  | cons y ys ih =>
    obtain ⟨ty, hty⟩ := Option.ne_none_iff_exists'.mp (hl y (List.mem_cons_self _ _))
    have hys : ∀ z ∈ ys, getTime (z.get "createdAt") ≠ none :=
      fun z hz => hl z (List.mem_cons_of_mem _ hz)
    obtain ⟨hy, hss⟩ := List.pairwise_cons.mp hs
    simp only [sortInsert, MemStorage.logCompare, hty, htx]
    by_cases hv : ty - tx ≤ 0
    · simp only [hv, if_true]
      refine List.pairwise_cons.mpr ⟨?_, hs⟩
      intro z hz
      rcases List.mem_cons.mp hz with rfl | hz
      · exact ⟨tx, ty, htx, hty, by omega⟩
      · obtain ⟨ta, tb, h1, h2, h3⟩ := hy z hz
        rw [hty] at h1; cases h1
        exact ⟨tx, tb, htx, h2, by omega⟩
    · simp only [hv, if_false]
      refine List.pairwise_cons.mpr ⟨?_, ih hys hss⟩
      intro z hz
      rcases List.mem_cons.mp ((sortInsert_perm _ x ys).mem_iff.mp hz) with rfl | hz
      · exact ⟨ty, tx, hty, htx, by omega⟩
      · exact hy z hz

theorem arraySort_newestFirst (getTime : JSValue → Option Int) (l : List JSObject)
    (hl : ∀ y ∈ l, getTime (y.get "createdAt") ≠ none) :
    (arraySort (MemStorage.logCompare getTime) l).Pairwise (NewestFirst getTime) := by
  induction l with
  | nil => simp [arraySort]
  | cons x xs ih =>
    have hxs : ∀ y ∈ xs, getTime (y.get "createdAt") ≠ none :=
      fun y hy => hl y (List.mem_cons_of_mem _ hy)
    refine sortInsert_newestFirst getTime x _ (hl x (List.mem_cons_self _ _)) ?_ (ih hxs)
    intro y hy
    exact hxs y ((mem_arraySort _ _ _).mp hy)

/-- Claim C10.  On a store whose logs all have a creation time that can be
read, the listing without a limit is a rearrangement of the logs of the table
whose `userId` is the given one, in which no log comes before a newer one; the
listing with a limit `N` of at least 1 is the first `N` entries of that list. -/
theorem getActivityLogsByUserId_sorted (s : MemStorage) (getTime : JSValue → Option Int)
    (userId : JSValue)
    (hvalid : ∀ l ∈ s.activityLogs.values, getTime (l.get "createdAt") ≠ none) :
    (s.getActivityLogsByUserId getTime userId none).Perm
      (s.activityLogs.values.filter (fun log => (log.get "userId").strictEq userId)) ∧
    (s.getActivityLogsByUserId getTime userId none).Pairwise (NewestFirst getTime) ∧
    ∀ N : Nat, 1 ≤ N →
      s.getActivityLogsByUserId getTime userId (some (N : Int)) =
        (s.getActivityLogsByUserId getTime userId none).take N := by
  refine ⟨arraySort_perm _ _, ?_, ?_⟩
  · apply arraySort_newestFirst
    intro y hy
    exact hvalid y (List.mem_filter.mp hy).1
  · intro N hN
    have hne : ((N : Int) != 0) = true := by simp; omega
    simp only [MemStorage.getActivityLogsByUserId, hne, if_true, arraySlice0]
    rw [if_neg (by omega)]
    simp

/-! ### Identity counters along a sequence of calls -/

namespace MemStorage

theorem foldl_deleteAccount_counter (l : List JSObject) (s : MemStorage) (T : Table) :
    (l.foldl (fun st a => st.deleteInstagramAccount (a.get "id")) s).counter T = s.counter T := by
  induction l generalizing s with
  | nil => rfl
  | cons a rest ih =>
    simp only [List.foldl_cons]
    rw [ih, deleteInstagramAccount_eq]
    cases T <;> rfl

theorem deleteUser_counter (s : MemStorage) (getTime : JSValue → Option Int) (id : JSValue)
    (T : Table) : (s.deleteUser getTime id).counter T = s.counter T := by
  rw [deleteUser_eq, ← foldl_deleteAccount_counter (s.getInstagramAccounts id) s T]
  cases T <;> rfl

/-- One call never lowers a counter, and a record that it creates in a table
carries the value that the counter of that table had, which the call then
raises by one. -/
theorem call_counter (getTime : JSValue → Option Int) (s : MemStorage) (c : Call) (T : Table) :
    s.counter T ≤ (s.call getTime c).1.counter T ∧
    ∀ r, (s.call getTime c).2 = some (T, r) →
      r.get "id" = .num (s.counter T) ∧ (s.call getTime c).1.counter T = s.counter T + 1 := by
  cases c with
  | deleteUser id =>
    simp only [call, deleteUser_counter]
    exact ⟨le_refl _, fun r h => by simp at h⟩
  | deleteInstagramAccount id =>
    simp only [call, deleteInstagramAccount_eq]
    refine ⟨by cases T <;> exact le_refl _, fun r h => by simp at h⟩
  | createUser now data =>
    cases T <;>
      simp [call, createUser, counter, stamp_id]
  | createInstagramAccount now data =>
    cases T <;>
      simp [call, createInstagramAccount, counter]
  | createCookie now data =>
    cases T <;>
      simp [call, createCookie, counter, stamp_id]
  | deleteCookie id =>
    cases T <;>
      simp [call, deleteCookie, counter]
  | createActivityLog now data =>
    cases T <;>
      simp [call, createActivityLog, counter, stamp_id]
  | updateActivityLog now id updates =>
    refine ⟨?_, fun r h => by simp [call] at h⟩
    simp only [call, updateActivityLog]
    cases s.activityLogs.get id <;> cases T <;> exact le_refl _

theorem createdIn_append (T : Table) (l₁ l₂ : List (Table × JSObject)) :
    createdIn T (l₁ ++ l₂) = createdIn T l₁ ++ createdIn T l₂ := by
  simp [createdIn]

/-- Along any sequence of calls from any store, the records created in a table
carry ids that are not below the counter at the start and that increase. -/
theorem calls_created_ids (getTime : JSValue → Option Int) (cs : List Call) (s : MemStorage)
    (T : Table) :
    (∀ r ∈ createdIn T (s.calls getTime cs).2,
      ∃ a : Nat, r.get "id" = .num a ∧ s.counter T ≤ a) ∧
    (createdIn T (s.calls getTime cs).2).Pairwise
      (fun r₁ r₂ => ∃ a b : Nat, r₁.get "id" = .num a ∧ r₂.get "id" = .num b ∧ a < b) := by
  induction cs generalizing s with
  | nil => simp [calls, createdIn]
  | cons c cs ih =>
    obtain ⟨hmono, hcreated⟩ := call_counter getTime s c T
    obtain ⟨hge, hpw⟩ := ih (s.call getTime c).1
    simp only [calls, createdIn_append]
    cases hr : (s.call getTime c).2 with
    | none =>
      simp only [Option.toList, createdIn, List.filter_nil, List.map_nil, List.nil_append]
      refine ⟨fun r hmem => ?_, hpw⟩
      obtain ⟨a, ha, hle⟩ := hge r hmem
      exact ⟨a, ha, le_trans hmono hle⟩
    | some e =>
      obtain ⟨T', r⟩ := e
      by_cases hT : T' = T
      · subst hT
        obtain ⟨hid, hnext⟩ := hcreated r hr
        have hcons : createdIn T' (Option.toList (some (T', r))) = [r] := by
          simp [createdIn, Option.toList]
        rw [hcons]
        refine ⟨fun x hx => ?_, ?_⟩
        · rcases List.mem_append.mp hx with hx | hx
          · rw [List.mem_singleton] at hx
            subst hx
            exact ⟨_, hid, le_refl _⟩
          · obtain ⟨a, ha, hle⟩ := hge x hx
            exact ⟨a, ha, le_trans hmono hle⟩
        · refine List.pairwise_cons.mpr ⟨fun x hx => ?_, hpw⟩
          obtain ⟨a, ha, hle⟩ := hge x hx
          exact ⟨_, a, hid, ha, by omega⟩
      · have hnil : createdIn T (Option.toList (some (T', r))) = [] := by
          simp [createdIn, Option.toList, hT]
        rw [hnil]
        refine ⟨fun x hx => ?_, hpw⟩
        obtain ⟨a, ha, hle⟩ := hge x hx
        exact ⟨a, ha, le_trans hmono hle⟩

end MemStorage

/-- Claim C8.  Along every sequence of calls on the store of the constructor, in
each table the id of a created record is greater than the id of every record
created there before it, whatever was deleted in between; and on every store
each create that returns gives its record the counter of its table as id,
whatever the input record holds, an id field of its own included. -/
theorem created_ids_strictly_increase (getTime : JSValue → Option Int) (cs : List Call)
    (T : Table) :
    (MemStorage.createdIn T (MemStorage.new.calls getTime cs).2).Pairwise
      (fun r₁ r₂ => ∃ a b : Nat, r₁.get "id" = .num a ∧ r₂.get "id" = .num b ∧ a < b) ∧
    (∀ (s : MemStorage) (c : Call) (r : JSObject), (s.call getTime c).2 = some (T, r) →
      r.get "id" = .num (s.counter T)) ∧
    (∀ (s : MemStorage) (now : String) (data : JSObject) (v : JSValue),
      (s.createUser now (data.set "id" v)).2.get "id" = .num s.userId ∧
      (s.createCookie now (data.set "id" v)).2.get "id" = .num s.cookieId ∧
      (s.createActivityLog now (data.set "id" v)).2.get "id" = .num s.logId) := by
  refine ⟨(MemStorage.calls_created_ids getTime cs MemStorage.new T).2, ?_, ?_⟩
  · intro s c r h
    exact ((MemStorage.call_counter getTime s c T).2 r h).1
  · intro s now data v
    simp [MemStorage.createUser, MemStorage.createCookie, MemStorage.createActivityLog,
      MemStorage.stamp_id]

/-! ### Invariants of the store

The two facts about a store that the properties above assume, a cookie is stored
under its own id and the log counter is above every key of the log table, hold
for the store of the constructor and are kept by every call. -/

theorem JSMap.mem_of_mem_set (m : JSMap) (k : JSValue) (v : JSObject)
    (e : JSValue × JSObject) (h : e ∈ m.set k v) : e = (k, v) ∨ e ∈ m := by
  induction m with
  | nil => simpa [JSMap.set] using h
  | cons e' rest ih =>
    obtain ⟨k', v'⟩ := e'
    by_cases hk : k' = k
    · simp only [JSMap.set, hk, if_true, List.mem_cons] at h
      rcases h with h | h
      · exact Or.inl h
      · exact Or.inr (List.mem_cons_of_mem _ h)
    · simp only [JSMap.set, hk, if_false, List.mem_cons] at h
      rcases h with h | h
      · exact Or.inr (h ▸ List.mem_cons_self _ _)
      · rcases ih h with h | h
        · exact Or.inl h
        · exact Or.inr (List.mem_cons_of_mem _ h)

theorem JSMap.mem_of_mem_delete (m : JSMap) (k : JSValue) (e : JSValue × JSObject)
    (h : e ∈ m.delete k) : e ∈ m :=
  (List.mem_filter.mp h).1

theorem JSMap.mem_of_mem_foldl_delete (l : List JSObject) (m : JSMap)
    (e : JSValue × JSObject)
    (h : e ∈ l.foldl (fun acc r => acc.delete (r.get "id")) m) : e ∈ m := by
  induction l generalizing m with
  | nil => simpa using h
  | cons r rest ih => exact JSMap.mem_of_mem_delete _ _ _ (ih _ (by simpa using h))

theorem JSMap.mem_of_get_some (m : JSMap) (k : JSValue) (v : JSObject)
    (h : m.get k = some v) : (k, v) ∈ m := by
  induction m with
  | nil => simp [JSMap.get] at h
  | cons e rest ih =>
    obtain ⟨k', v'⟩ := e
    by_cases hk : k' = k
    · simp only [JSMap.get, hk, if_true, Option.some.injEq] at h
      simp [hk, h]
    · simp only [JSMap.get, hk, if_false] at h
      exact List.mem_cons_of_mem _ (ih h)

theorem JSMap.get_eq_none_of_forall_ne (m : JSMap) (k : JSValue)
    (h : ∀ e ∈ m, e.1 ≠ k) : m.get k = none := by
  cases hg : m.get k with
  | none => rfl
  | some v => exact absurd rfl (h _ (JSMap.mem_of_get_some m k v hg))

namespace MemStorage

theorem foldl_deleteAccount_cookies_subset (l : List JSObject) (s : MemStorage)
    (e : JSValue × JSObject)
    (h : e ∈ (l.foldl (fun st a => st.deleteInstagramAccount (a.get "id")) s).cookies) :
    e ∈ s.cookies := by
  induction l generalizing s with
  | nil => simpa using h
  | cons a rest ih =>
    have h1 := ih _ (by simpa using h)
    rw [deleteInstagramAccount_eq] at h1
    exact JSMap.mem_of_mem_foldl_delete _ _ _ h1

/-- Every call keeps the cookies stored under their own ids. -/
theorem call_cookies_keyed (getTime : JSValue → Option Int) (s : MemStorage) (c : Call)
    (h : ∀ e ∈ s.cookies, e.2.get "id" = e.1) :
    ∀ e ∈ (s.call getTime c).1.cookies, e.2.get "id" = e.1 := by
  intro e he
  cases c with
  | createUser now data => exact h e he
  | deleteUser id =>
    simp only [call, deleteUser_eq] at he
    exact h e (foldl_deleteAccount_cookies_subset _ _ _ he)
  | createInstagramAccount now data => exact h e he
  | deleteInstagramAccount id =>
    simp only [call, deleteInstagramAccount_eq] at he
    exact h e (JSMap.mem_of_mem_foldl_delete _ _ _ he)
  | createCookie now data =>
    simp only [call, createCookie] at he
    rcases JSMap.mem_of_mem_set _ _ _ _ he with rfl | he
    · exact stamp_id _ _ _
    · exact h e he
  | deleteCookie id => exact h e (JSMap.mem_of_mem_delete _ _ _ he)
  | createActivityLog now data => exact h e he
  | updateActivityLog now id updates =>
    simp only [call, updateActivityLog] at he
    cases hg : s.activityLogs.get id <;> simp only [hg] at he <;> exact h e he

/-- Every call keeps the log counter above the keys of the log table. -/
theorem call_logs_below_counter (getTime : JSValue → Option Int) (s : MemStorage) (c : Call)
    (h : ∀ e ∈ s.activityLogs, ∃ a : Nat, e.1 = .num a ∧ a < s.logId) :
    ∀ e ∈ (s.call getTime c).1.activityLogs,
      ∃ a : Nat, e.1 = .num a ∧ a < (s.call getTime c).1.logId := by
  intro e he
  cases c with
  | createUser now data => exact h e he
  | deleteUser id =>
    have hid : (s.deleteUser getTime id).logId = s.logId :=
      deleteUser_counter s getTime id .activityLogs
    simp only [call, hid]
    simp only [call, deleteUser_eq] at he
    exact h e (JSMap.mem_of_mem_foldl_delete _ _ _ he)
  | createInstagramAccount now data => exact h e he
  | deleteInstagramAccount id =>
    simp only [call, deleteInstagramAccount_eq] at he ⊢
    exact h e he
  | createCookie now data => exact h e he
  | deleteCookie id => exact h e he
  | createActivityLog now data =>
    simp only [call, createActivityLog] at he ⊢
    rcases JSMap.mem_of_mem_set _ _ _ _ he with rfl | he
    · exact ⟨s.logId, rfl, Nat.lt_succ_self _⟩
    · obtain ⟨a, ha, hlt⟩ := h e he
      exact ⟨a, ha, Nat.lt_succ_of_lt hlt⟩
  | updateActivityLog now id updates =>
    simp only [call, updateActivityLog] at he ⊢
    cases hg : s.activityLogs.get id with
    | none => simp only [hg] at he ⊢; exact h e he
    | some log =>
      simp only [hg] at he ⊢
      rcases JSMap.mem_of_mem_set _ _ _ _ he with rfl | he
      · exact h (id, log) (JSMap.mem_of_get_some _ _ _ hg)
      · exact h e he

theorem calls_append_one (getTime : JSValue → Option Int) (s : MemStorage) (cs : List Call)
    (c : Call) :
    (s.calls getTime (cs ++ [c])).1 = ((s.calls getTime cs).1.call getTime c).1 := by
  induction cs generalizing s with
  | nil => rfl
  | cons c' cs ih => exact ih (s.call getTime c').1

/-- In every store that a sequence of calls builds from the store of the
constructor, the cookies are stored under their own ids and the log counter is
not a key of the log table. -/
theorem calls_new_invariants (getTime : JSValue → Option Int) (cs : List Call) :
    (∀ e ∈ (MemStorage.new.calls getTime cs).1.cookies, e.2.get "id" = e.1) ∧
    (MemStorage.new.calls getTime cs).1.getActivityLog
      (.num (MemStorage.new.calls getTime cs).1.logId) = none := by
  have key : (∀ e ∈ (MemStorage.new.calls getTime cs).1.cookies, e.2.get "id" = e.1) ∧
      (∀ e ∈ (MemStorage.new.calls getTime cs).1.activityLogs,
        ∃ a : Nat, e.1 = .num a ∧ a < (MemStorage.new.calls getTime cs).1.logId) := by
    induction cs using List.reverseRecOn with
    | nil => exact ⟨fun e he => by simp [calls, MemStorage.new] at he,
        fun e he => by simp [calls, MemStorage.new] at he⟩
    | append_singleton cs c ih =>
      rw [calls_append_one]
      exact ⟨call_cookies_keyed _ _ _ ih.1, call_logs_below_counter _ _ _ ih.2⟩
  refine ⟨key.1, JSMap.get_eq_none_of_forall_ne _ _ fun e he heq => ?_⟩
  obtain ⟨a, ha, hlt⟩ := key.2 e he
  rw [ha] at heq
  simp only [JSValue.num.injEq, Nat.cast_inj] at heq
  omega

end MemStorage

/-! ### The properties at the sample store -/

/-- Claim C1 at the sample store: deleting user 1, who owns accounts 1 and 2. -/
theorem deleteUser_removes_dependents_witness :
    (∀ e ∈ sampleStore.cookies, e.2.get "id" = e.1) ∧
    ((sampleStore.deleteUser sampleGetTime (.num 1)).getUser (.num 1) = none ∧
    (∀ a ∈ sampleStore.getInstagramAccounts (.num 1),
      (sampleStore.deleteUser sampleGetTime (.num 1)).getInstagramAccount (a.get "id") = none) ∧
    (∀ a ∈ sampleStore.getInstagramAccounts (.num 1), ∀ c ∈ sampleStore.cookies.values,
      (c.get "accountId").strictEq (a.get "id") = true →
        (sampleStore.deleteUser sampleGetTime (.num 1)).getCookie (c.get "id") = none) ∧
    (∀ l ∈ sampleStore.activityLogs.values, (l.get "userId").strictEq (.num 1) = true →
      (sampleStore.deleteUser sampleGetTime (.num 1)).getActivityLog (l.get "id") = none)) :=
  ⟨by decide, deleteUser_removes_dependents sampleStore sampleGetTime (.num 1) (by decide)⟩

/-- Claim C3 at the sample store: user 1 asks to follow alice. -/
theorem postRun_logs_exactly_once_witness :
    followBody.get "type" = .str "follow" ∧
    requiredParams "follow" = some ["username"] ∧
    (∀ p ∈ ["username"], (followBody.get p).truthy = true) ∧
    sampleStore.getCookiesByUserId (.num 1) ≠ [] ∧
    sampleStore.getActivityLog (.num sampleStore.logId) = none ∧
    ∃ (row0 rowF : JSObject) (fn : String) (args : List JSValue) (o : Outcome),
      postRun sampleIg sampleStore (.num 1) followBody "t1" "t2" =
        ({ sampleStore with
            logId := sampleStore.logId + 1
            activityLogs := sampleStore.activityLogs ++ [(.num sampleStore.logId, rowF)] },
          { status := 200, body := .result o },
          [.createActivityLog row0, .call fn args o,
            .updateActivityLog (.num sampleStore.logId)
              [("status", .str (if o.success then "success" else "failed"))]]) ∧
      row0.get "id" = .num sampleStore.logId ∧
      row0.get "userId" = .num 1 ∧
      row0.get "status" = .str "pending" ∧
      rowF.get "id" = .num sampleStore.logId ∧
      rowF.get "userId" = .num 1 ∧
      rowF.get "status" = .str (if o.success then "success" else "failed") ∧
      rowF.get "status" ≠ .str "pending" :=
  ⟨by decide, by decide, by decide, by decide, by decide,
    postRun_logs_exactly_once sampleIg sampleStore (.num 1) followBody "t1" "t2" "follow"
      ["username"]
      (by decide) (by decide) (by decide) (by decide) (by decide)⟩

/-- Claim C4 at the sample store: user 1 asks to comment with an empty text. -/
theorem postRun_missing_parameter_witness :
    emptyCommentBody.get "type" = .str "comment" ∧
    requiredParams "comment" = some ["postUrl", "commentText"] ∧
    "commentText" ∈ ["postUrl", "commentText"] ∧
    (emptyCommentBody.get "commentText" = .undefined ∨
      emptyCommentBody.get "commentText" = .str "") ∧
    ∃ m : String,
      postRun sampleIg sampleStore (.num 1) emptyCommentBody "t1" "t2" =
        (sampleStore, { status := 400, body := .message m }, []) :=
  ⟨by decide, by decide, by decide, Or.inr (by decide),
    postRun_missing_parameter sampleIg sampleStore (.num 1) emptyCommentBody "t1" "t2"
      "comment" ["postUrl", "commentText"] "commentText"
      (by decide) (by decide) (by decide) (Or.inr (by decide))⟩

/-- Claim C5 at the sample store: user 7, who has no cookie, asks to follow
alice. -/
theorem postRun_no_cookies_witness :
    sampleStore.getCookiesByUserId (.num 7) = [] ∧
    ∃ m pre post : String,
      postRun sampleIg sampleStore (.num 7) followBody "t1" "t2" =
        (sampleStore, { status := 400, body := .message m }, []) ∧
      m = pre ++ "No cookies available" ++ post :=
  ⟨by decide,
    postRun_no_cookies sampleIg sampleStore (.num 7) followBody "t1" "t2" (by decide)⟩

/-- Claim C6, as the handler behaves, at the sample store: user 1 asks for the
kind "share". -/
theorem postRun_unknown_kind_witness :
    (∀ t, unknownKindBody.get "type" = .str t → requiredParams t = none) ∧
    sampleStore.getCookiesByUserId (.num 1) ≠ [] ∧
    postRun sampleIg sampleStore (.num 1) unknownKindBody "t1" "t2" =
      (sampleStore,
        { status := 200,
          body := .result { success := false, message := "Unknown automation type" } },
        []) :=
  ⟨fun t h => by
      have ht : t = "share" := by simpa [unknownKindBody, JSObject.get] using h.symm
      subst ht; decide,
    by decide,
    postRun_unknown_kind sampleIg sampleStore (.num 1) unknownKindBody "t1" "t2"
      (fun t h => by
        have ht : t = "share" := by simpa [unknownKindBody, JSObject.get] using h.symm
        subst ht; decide)
      (by decide)⟩

/-- Claim C9, as the method behaves, at the sample store: the listing of user 1
with limit 1. -/
theorem getActivityLogsByUserId_length_le_witness :
    (1 : Int) ≤ 1 ∧
    ((sampleStore.getActivityLogsByUserId sampleGetTime (.num 1) (some 1)).length : Int) ≤ 1 :=
  ⟨by decide, getActivityLogsByUserId_length_le sampleStore sampleGetTime (.num 1) 1 (by decide)⟩

/-- Claim C10 at the sample store: the listing of user 1. -/
theorem getActivityLogsByUserId_sorted_witness :
    (∀ l ∈ sampleStore.activityLogs.values, sampleGetTime (l.get "createdAt") ≠ none) ∧
    ((sampleStore.getActivityLogsByUserId sampleGetTime (.num 1) none).Perm
      (sampleStore.activityLogs.values.filter
        (fun log => (log.get "userId").strictEq (.num 1))) ∧
    (sampleStore.getActivityLogsByUserId sampleGetTime (.num 1) none).Pairwise
      (NewestFirst sampleGetTime) ∧
    ∀ N : Nat, 1 ≤ N →
      sampleStore.getActivityLogsByUserId sampleGetTime (.num 1) (some (N : Int)) =
        (sampleStore.getActivityLogsByUserId sampleGetTime (.num 1) none).take N) :=
  ⟨by decide, getActivityLogsByUserId_sorted sampleStore sampleGetTime (.num 1) (by decide)⟩

/-! ### The media id of a shortcode -/

theorem excessBits_spec (fuel n : Nat) (h : 2 ^ 53 ≤ n) :
    1 ≤ excessBits (fuel + 1) n ∧ 2 ^ 52 ≤ n / 2 ^ excessBits (fuel + 1) n := by
  induction fuel generalizing n with
  | zero =>
    have hn : ¬ n < 2 ^ 53 := by omega
    have he : excessBits (0 + 1) n = 1 := by
      rw [excessBits, if_neg hn, excessBits]
    rw [he]
    refine ⟨le_refl _, ?_⟩
    rw [pow_one]
    omega
  | succ f ih =>
    have hn : ¬ n < 2 ^ 53 := by omega
    have he : excessBits (f + 1 + 1) n = 1 + excessBits (f + 1) (n / 2) := by
      rw [excessBits, if_neg hn]
    rw [he]
    refine ⟨by omega, ?_⟩
    have hdiv : n / 2 ^ (1 + excessBits (f + 1) (n / 2)) =
        n / 2 / 2 ^ excessBits (f + 1) (n / 2) := by
      rw [pow_add, pow_one, Nat.div_div_eq_div_mul]
    rw [hdiv]
    by_cases h2 : n / 2 < 2 ^ 53
    · have h0 : excessBits (f + 1) (n / 2) = 0 := by rw [excessBits, if_pos h2]
      rw [h0, pow_zero, Nat.div_one]
      omega
    · exact (ih (n / 2) (by omega)).2

theorem roundDouble_of_lt (n : Nat) (h : n < 2 ^ 53) : roundDouble n = n := by
  unfold roundDouble
  rw [if_pos h]

theorem roundDouble_ge (n : Nat) (h : 2 ^ 53 ≤ n) : 2 ^ 53 ≤ roundDouble n := by
  have hn : ¬ n < 2 ^ 53 := by omega
  obtain ⟨m, rfl⟩ : ∃ m, n = m + 1 := ⟨n - 1, by omega⟩
  obtain ⟨he, hq⟩ := excessBits_spec m (m + 1) h
  have hpow : 2 ≤ 2 ^ excessBits (m + 1) (m + 1) := by
    calc 2 = 2 ^ 1 := by norm_num
      _ ≤ 2 ^ excessBits (m + 1) (m + 1) := Nat.pow_le_pow_right (by norm_num) he
  have hbase : 2 ^ 53 ≤ (m + 1) / 2 ^ excessBits (m + 1) (m + 1) * 2 ^ excessBits (m + 1) (m + 1) := by
    calc 2 ^ 53 = 2 ^ 52 * 2 := by norm_num
      _ ≤ (m + 1) / 2 ^ excessBits (m + 1) (m + 1) * 2 ^ excessBits (m + 1) (m + 1) :=
        Nat.mul_le_mul hq hpow
  have hup : (m + 1) / 2 ^ excessBits (m + 1) (m + 1) * 2 ^ excessBits (m + 1) (m + 1) ≤
      ((m + 1) / 2 ^ excessBits (m + 1) (m + 1) + 1) * 2 ^ excessBits (m + 1) (m + 1) :=
    Nat.mul_le_mul_right _ (Nat.le_succ _)
  unfold roundDouble
  rw [if_neg hn]
  simp only []
  split_ifs <;> omega

theorem roundDouble_eq_of_lt (w v : Nat) (h : roundDouble w = v) (hv : v < 2 ^ 53) : w = v := by
  by_cases hw : w < 2 ^ 53
  · rw [roundDouble_of_lt w hw] at h; exact h
  · have := roundDouble_ge w (by omega)
    omega

theorem shortestRoundTrip_of_lt (v : Nat) (hv : v < 2 ^ 53) : shortestRoundTrip v = v := by
  unfold shortestRoundTrip
  cases hf : (shortestCandidates v).find? (fun w => roundDouble w == v) with
  | none => rfl
  | some w =>
    have hw := List.find?_some hf
    exact roundDouble_eq_of_lt w v (by simpa using hw) hv

theorem numberToString_of_lt (v : Nat) (hv : v < 2 ^ 53) :
    numberToString (.finite (v : Int)) = Nat.repr v := by
  have h21 : v < 10 ^ 21 := lt_trans hv (by norm_num)
  have hneg : ¬ ((v : Int) < 0) := by omega
  simp only [numberToString, Int.natAbs_ofNat, shortestRoundTrip_of_lt v hv, h21, if_true, hneg,
    if_false]

theorem alphabet_length : alphabet.length = 64 := by decide

theorem digitValue_lt (c : Char) (hc : c ∈ alphabet) : digitValue c < 64 := by
  have := List.indexOf_lt_length.mpr hc
  rw [alphabet_length] at this
  exact this

theorem alphabetIndexOf_of_mem (c : Char) (hc : c ∈ alphabet) :
    alphabetIndexOf c = (digitValue c : Int) := by
  have := List.indexOf_lt_length.mpr hc
  simp [alphabetIndexOf, digitValue, this]

/-- While the value stays below `2 ^ 53` the loop of `shortcodeToMediaId` adds up
the digits exactly. -/
theorem foldl_mediaIdStep (cs : List Char) (a : Nat)
    (halpha : ∀ c ∈ cs, c ∈ alphabet)
    (hsmall : a * 64 ^ cs.length + positionalSum (cs.map digitValue) < 2 ^ 53) :
    cs.foldl mediaIdStep (.finite (a : Int)) =
      .finite ((a * 64 ^ cs.length + positionalSum (cs.map digitValue) : Nat) : Int) := by
  induction cs generalizing a with
  | nil => simp [positionalSum]
  | cons c cs ih =>
    have hc : c ∈ alphabet := halpha c (List.mem_cons_self _ _)
    have hpos : 1 ≤ 64 ^ cs.length := Nat.one_le_pow _ _ (by norm_num)
    have hrw : a * 64 ^ (c :: cs).length + positionalSum ((c :: cs).map digitValue) =
        (a * 64 + digitValue c) * 64 ^ cs.length + positionalSum (cs.map digitValue) := by
      simp only [List.length_cons, List.map_cons, positionalSum, List.length_map, pow_succ]
      ring
    rw [hrw] at hsmall ⊢
    have hstep : a * 64 + digitValue c < 2 ^ 53 := by
      have : a * 64 + digitValue c ≤ (a * 64 + digitValue c) * 64 ^ cs.length :=
        Nat.le_mul_of_pos_right _ hpos
      omega
    have hexact : (a : Int) * 64 + alphabetIndexOf c = ((a * 64 + digitValue c : Nat) : Int) := by
      rw [alphabetIndexOf_of_mem c hc]; push_cast; ring
    have hbig : ¬ (2 ^ 1024 ≤ a * 64 + digitValue c) := fun hle =>
      absurd (lt_of_lt_of_le hstep
        (le_trans (Nat.pow_le_pow_right (by norm_num) (by norm_num)) hle)) (lt_irrefl _)
    have hnonneg : ¬ (((a * 64 + digitValue c : Nat) : Int) < 0) := by omega
    have hone : mediaIdStep (.finite (a : Int)) c =
        .finite ((a * 64 + digitValue c : Nat) : Int) := by
      simp only [mediaIdStep, hexact, Int.natAbs_ofNat, roundDouble_of_lt _ hstep, hbig,
        hnonneg, if_false]
    rw [List.foldl_cons, hone]
    exact ih (a * 64 + digitValue c) (fun x hx => halpha x (List.mem_cons_of_mem _ hx)) hsmall

theorem positionalSum_lt (ds : List Nat) (h : ∀ d ∈ ds, d < 64) :
    positionalSum ds < 64 ^ ds.length := by
  induction ds with
  | nil => simp [positionalSum]
  | cons d ds ih =>
    have h1 := ih (fun x hx => h x (List.mem_cons_of_mem _ hx))
    have h2 : d < 64 := h d (List.mem_cons_self _ _)
    simp only [positionalSum, List.length_cons, pow_succ]
    nlinarith

/-- A shortcode of at most eight characters of the alphabet has a value below
`2 ^ 53`. -/
theorem positionalSum_lt_of_length_le (cs : List Char) (halpha : ∀ c ∈ cs, c ∈ alphabet)
    (hlen : cs.length ≤ 8) : positionalSum (cs.map digitValue) < 2 ^ 53 := by
  have h1 : positionalSum (cs.map digitValue) < 64 ^ (cs.map digitValue).length :=
    positionalSum_lt _ (by
      intro d hd
      obtain ⟨c, hc, rfl⟩ := List.mem_map.mp hd
      exact digitValue_lt c (halpha c hc))
  rw [List.length_map] at h1
  have h2 : 64 ^ cs.length ≤ 64 ^ 8 := Nat.pow_le_pow_right (by norm_num) hlen
  have h3 : (64 : Nat) ^ 8 < 2 ^ 53 := by norm_num
  omega

/-- Claim C11, as the function behaves.  For a shortcode of characters of the
alphabet whose positional value is below `2 ^ 53`, or that has at most eight
characters, `shortcodeToMediaId` returns the decimal string of that value. -/
theorem shortcodeToMediaId_exact (shortcode : String)
    (halpha : ∀ c ∈ shortcode.toList, c ∈ alphabet)
    (hsmall : positionalSum (shortcode.toList.map digitValue) < 2 ^ 53 ∨
      shortcode.toList.length ≤ 8) :
    shortcodeToMediaId shortcode =
      Nat.repr (positionalSum (shortcode.toList.map digitValue)) := by
  have hlt : positionalSum (shortcode.toList.map digitValue) < 2 ^ 53 := by
    rcases hsmall with h | h
    · exact h
    · exact positionalSum_lt_of_length_le _ halpha h
  have hfold := foldl_mediaIdStep shortcode.toList 0 halpha (by simpa using hlt)
  simp only [Nat.cast_zero, Nat.zero_mul, Nat.zero_add] at hfold
  have h0 : (JSNumber.finite 0) = .finite ((0 : Nat) : Int) := rfl
  rw [shortcodeToMediaId, hfold, numberToString_of_lt _ hlt]

set_option exponentiation.threshold 2000 in
set_option maxRecDepth 100000 in
/-- Claim C11, as stated, fails at a shortcode of eleven characters of the
alphabet: the value of "BAAAAAAAAAB" is `2 ^ 60 + 1`, whose decimal string ends
in 6977, and the function returns the string that ends in 7000. -/
theorem shortcodeToMediaId_eleven_inexact :
    (∀ c ∈ "BAAAAAAAAAB".toList, c ∈ alphabet) ∧
    "BAAAAAAAAAB".toList.length = 11 ∧
    Nat.repr (positionalSum ("BAAAAAAAAAB".toList.map digitValue)) = "1152921504606846977" ∧
    shortcodeToMediaId "BAAAAAAAAAB" = "1152921504606847000" ∧
    shortcodeToMediaId "BAAAAAAAAAB" ≠
      Nat.repr (positionalSum ("BAAAAAAAAAB".toList.map digitValue)) := by
  decide

/-- Claim C11, as the function behaves, at the shortcode "ABC123". -/
theorem shortcodeToMediaId_exact_witness :
    (∀ c ∈ "ABC123".toList, c ∈ alphabet) ∧
    (positionalSum ("ABC123".toList.map digitValue) < 2 ^ 53 ∨ "ABC123".toList.length ≤ 8) ∧
    shortcodeToMediaId "ABC123" = Nat.repr (positionalSum ("ABC123".toList.map digitValue)) :=
  ⟨by decide, Or.inr (by decide),
    shortcodeToMediaId_exact "ABC123" (by decide) (Or.inr (by decide))⟩

/-! ### Splitting a string -/

theorem splitScan_nil (sep : List Char) (skip : Nat) (cur : List Char) :
    splitScan sep [] skip cur = [cur.reverse] := by
  cases skip <;> rfl

theorem splitScan_skip (sep : List Char) (c : Char) (cs : List Char) (skip : Nat)
    (cur : List Char) : splitScan sep (c :: cs) (skip + 1) cur = splitScan sep cs skip cur :=
  rfl

theorem splitScan_found (sep : List Char) (c : Char) (cs cur : List Char)
    (h : sep.isPrefixOf (c :: cs) = true) :
    splitScan sep (c :: cs) 0 cur = cur.reverse :: splitScan sep cs (sep.length - 1) [] := by
  rw [splitScan, if_pos h]

theorem splitScan_next (sep : List Char) (c : Char) (cs cur : List Char)
    (h : sep.isPrefixOf (c :: cs) = false) :
    splitScan sep (c :: cs) 0 cur = splitScan sep cs 0 (c :: cur) := by
  rw [splitScan, if_neg (by simp [h])]

/-- A string that does not include the separator is split into itself. -/
theorem splitScan_of_not_includes (sep x cur : List Char) (h : jsIncludes sep x = false) :
    splitScan sep x 0 cur = [cur.reverse ++ x] := by
  induction x generalizing cur with
  | nil => simp [splitScan_nil]
  | cons c cs ih =>
    simp only [jsIncludes, Bool.or_eq_false_iff] at h
    rw [splitScan_next _ _ _ _ h.1, ih (c :: cur) h.2]
    simp

/-- The first piece of a split starts with what was read before the scan. -/
theorem splitScan_head_cur (sep x cur : List Char) :
    (splitScan sep x 0 cur).headD [] = cur.reverse ++ (splitScan sep x 0 []).headD [] := by
  induction x generalizing cur with
  | nil => simp [splitScan_nil]
  | cons c cs ih =>
    cases hm : sep.isPrefixOf (c :: cs) with
    | true => simp [splitScan_found _ _ _ _ hm]
    | false =>
      rw [splitScan_next _ _ _ _ hm, splitScan_next _ _ _ _ hm, ih (c :: cur), ih [c]]
      simp

/-- The first piece of a split at a single character passes over a stretch that
does not hold the character. -/
theorem splitScan_head_append (c : Char) (s t cur : List Char) (hs : c ∉ s) :
    (splitScan [c] (s ++ t) 0 cur).headD [] =
      cur.reverse ++ s ++ (splitScan [c] t 0 []).headD [] := by
  induction s generalizing cur with
  | nil => simpa using splitScan_head_cur [c] t cur
  | cons d ds ih =>
    have hd : c ≠ d := fun h => hs (h ▸ List.mem_cons_self _ _)
    have hds : c ∉ ds := fun h => hs (List.mem_cons_of_mem _ h)
    have hm : List.isPrefixOf [c] (d :: (ds ++ t)) = false := by
      simp [List.isPrefixOf, hd]
    rw [List.cons_append, splitScan_next _ _ _ _ hm, ih (d :: cur) hds]
    simp

theorem splitScan_head_stop (c : Char) (t : List Char)
    (ht : t = [] ∨ t.head? = some c) : (splitScan [c] t 0 []).headD [] = [] := by
  rcases ht with rfl | ht
  · simp [splitScan_nil]
  · cases t with
    | nil => simp at ht
    | cons d ds =>
      simp only [List.head?_cons, Option.some.injEq] at ht
      subst ht
      rw [splitScan_found _ _ _ _ (by simp [List.isPrefixOf])]
      rfl

/-- The first piece of any split is empty or starts like the string. -/
theorem splitScan_first_piece (sep x cur : List Char) :
    ∃ p tl, (p = [] ∨ p.head? = x.head?) ∧ splitScan sep x 0 cur = (cur.reverse ++ p) :: tl := by
  induction x generalizing cur with
  | nil => exact ⟨[], [], Or.inl rfl, by simp [splitScan_nil]⟩
  | cons c cs ih =>
    cases hm : sep.isPrefixOf (c :: cs) with
    | true =>
      exact ⟨[], splitScan sep cs (sep.length - 1) [], Or.inl rfl, by
        rw [splitScan_found _ _ _ _ hm]; simp⟩
    | false =>
      obtain ⟨p, tl, _, hp⟩ := ih (c :: cur)
      refine ⟨c :: p, tl, Or.inr rfl, ?_⟩
      rw [splitScan_next _ _ _ _ hm, hp]
      simp

/-- The piece that the split at `/p/` reads from a stretch without a slash. -/
theorem splitScan_slash_p_piece (s rest cur : List Char) (hs : '/' ∉ s) :
    ∃ p tl, (p = [] ∨ p.head? = rest.head?) ∧
      splitScan ['/', 'p', '/'] (s ++ rest) 0 cur = (cur.reverse ++ s ++ p) :: tl := by
  induction s generalizing cur with
  | nil => simpa using splitScan_first_piece ['/', 'p', '/'] rest cur
  | cons d ds ih =>
    have hd : '/' ≠ d := fun h => hs (h ▸ List.mem_cons_self _ _)
    have hds : '/' ∉ ds := fun h => hs (List.mem_cons_of_mem _ h)
    have hm : List.isPrefixOf ['/', 'p', '/'] (d :: (ds ++ rest)) = false := by
      simp [List.isPrefixOf, hd]
    obtain ⟨p, tl, hp, hsplit⟩ := ih (d :: cur) hds
    refine ⟨p, tl, hp, ?_⟩
    rw [List.cons_append, splitScan_next _ _ _ _ hm, hsplit]
    simp

/-- The split at `/p/` of a string whose first `/p/` comes after `pre`. -/
theorem splitScan_slash_p (pre t cur : List Char)
    (hpre : jsIncludes ['/', 'p', '/'] (pre ++ ['/', 'p']) = false) :
    splitScan ['/', 'p', '/'] (pre ++ ['/', 'p', '/'] ++ t) 0 cur =
      (cur.reverse ++ pre) :: splitScan ['/', 'p', '/'] t 0 [] := by
  induction pre generalizing cur with
  | nil =>
    rw [List.nil_append, List.cons_append,
      splitScan_found _ _ _ _ (by simp [List.isPrefixOf])]
    simp [splitScan_skip]
  | cons c cs ih =>
    simp only [List.cons_append, jsIncludes, Bool.or_eq_false_iff] at hpre
    have hm : List.isPrefixOf ['/', 'p', '/'] (c :: (cs ++ ['/', 'p', '/'] ++ t)) = false := by
      have h1 := hpre.1
      cases cs with
      | nil => simp [List.isPrefixOf]
      | cons d ds =>
        cases ds with
        | nil => simpa [List.isPrefixOf] using h1
        | cons e es => simpa [List.isPrefixOf] using h1
    rw [List.cons_append, List.cons_append, splitScan_next _ _ _ _ hm, ih (c :: cur) hpre.2]
    simp

/-! ### Reading the shortcode of a post -/

theorem extractShortcode_of_not_includes (postUrl : String)
    (h : jsIncludes "/p/".toList postUrl.toList = false) :
    extractShortcode (.str postUrl) =
      .error (.typeError "Cannot read properties of undefined (reading 'split')") := by
  simp only [extractShortcode, jsSplit, splitScan_of_not_includes _ _ _ h]
  rfl

theorem parseCookieString_str (cookieStr : String) :
    ∃ cookies, parseCookieString (.str cookieStr) = .ok cookies :=
  ⟨_, rfl⟩

/-- Claim C16.  For a post address that is a string without `/p/` and a cookie
that is a string, `likePost`, `unlikePost` and `commentPost` return the failed
outcome with the message "Invalid post URL format", and make no request. -/
theorem post_variants_invalid_url (axios : Axios) (postUrl cookieStr : String)
    (commentText : JSValue)
    (h : jsIncludes "/p/".toList postUrl.toList = false) :
    likePost axios (.str postUrl) (.str cookieStr) =
      ({ success := false, message := "Invalid post URL format" }, []) ∧
    unlikePost axios (.str postUrl) (.str cookieStr) =
      ({ success := false, message := "Invalid post URL format" }, []) ∧
    commentPost axios (.str postUrl) commentText (.str cookieStr) =
      ({ success := false, message := "Invalid post URL format" }, []) := by
  obtain ⟨cookies, hc⟩ := parseCookieString_str cookieStr
  simp only [likePost, unlikePost, commentPost, postVariant, hc,
    extractShortcode_of_not_includes postUrl h, and_self]

/-- Claim C18, as the expression behaves.  For a shortcode `s` without `/` and
`?`, a start `pre` such that `pre` followed by `/p` does not include `/p/`, and
a rest that is empty or begins with `/` or `?`, the shortcode read from
`pre ++ "/p/" ++ s ++ rest` is `s`. -/
theorem extractShortcode_of_post_url (pre s rest : List Char)
    (hs1 : '/' ∉ s) (hs2 : '?' ∉ s)
    (hpre : jsIncludes "/p/".toList (pre ++ "/p".toList) = false)
    (hrest : rest = [] ∨ rest.head? = some '/' ∨ rest.head? = some '?') :
    extractShortcode (.str (String.mk (pre ++ "/p/".toList ++ s ++ rest))) =
      .ok (String.mk s) := by
  have hsep : "/p/".toList = ['/', 'p', '/'] := rfl
  have hsl : "/".toList = ['/'] := rfl
  have hq : "?".toList = ['?'] := rfl
  have hp2 : "/p".toList = ['/', 'p'] := rfl
  rw [hsep, hp2] at hpre
  obtain ⟨p, tl, hp, hpiece⟩ := splitScan_slash_p_piece s rest [] hs1
  have hsplit : jsSplit (pre ++ ['/', 'p', '/'] ++ s ++ rest) ['/', 'p', '/'] =
      pre :: (s ++ p) :: tl := by
    rw [jsSplit, List.append_assoc (pre ++ ['/', 'p', '/']) s rest,
      splitScan_slash_p pre (s ++ rest) [] hpre, hpiece]
    simp
  have hfirst : (jsSplit (s ++ p) ['/']).headD [] = s ∨
      ∃ q, (jsSplit (s ++ p) ['/']).headD [] = s ++ '?' :: q := by
    rcases hp with rfl | hp
    · left
      rw [jsSplit, splitScan_head_append '/' s [] [] hs1,
        splitScan_head_stop '/' [] (Or.inl rfl)]
      simp
    · rcases hrest with rfl | hr | hr
      · cases p with
        | nil =>
          left
          rw [jsSplit, splitScan_head_append '/' s [] [] hs1,
            splitScan_head_stop '/' [] (Or.inl rfl)]
          simp
        | cons c cs => simp at hp
      · left
        rw [jsSplit, splitScan_head_append '/' s p [] hs1,
          splitScan_head_stop '/' p (Or.inr (hp.trans hr))]
        simp
      · right
        cases p with
        | nil => simp [hr] at hp
        | cons c cs =>
          rw [hr] at hp
          simp only [List.head?_cons, Option.some.injEq] at hp
          subst hp
          refine ⟨(splitScan ['/'] cs 0 []).headD [], ?_⟩
          have hs3 : '/' ∉ s ++ ['?'] := by
            simp only [List.mem_append, List.mem_singleton, not_or]
            exact ⟨hs1, by decide⟩
          have := splitScan_head_append '/' (s ++ ['?']) cs [] hs3
          simp only [List.append_assoc, List.singleton_append, List.reverse_nil,
            List.nil_append] at this
          rw [jsSplit, this]
  have hsecond : (jsSplit ((jsSplit (s ++ p) ['/']).headD []) ['?']).headD [] = s := by
    rcases hfirst with h | ⟨q, h⟩
    · rw [h, jsSplit]
      have := splitScan_head_append '?' s [] [] hs2
      simp only [List.append_nil, List.reverse_nil, List.nil_append] at this
      rw [this, splitScan_head_stop '?' [] (Or.inl rfl)]
      simp
    · rw [h, jsSplit, splitScan_head_append '?' s ('?' :: q) [] hs2,
        splitScan_head_stop '?' ('?' :: q) (Or.inr rfl)]
      simp
  have hdata : (String.mk (pre ++ ['/', 'p', '/'] ++ s ++ rest)).toList =
      pre ++ ['/', 'p', '/'] ++ s ++ rest := rfl
  simp only [extractShortcode, hsep, hsl, hq, hdata, hsplit, List.get?_cons_succ,
    List.get?_cons_zero, hsecond]

/-- Claim C18, as stated, fails: the start "https://site/p" does not include
`/p/`, the shortcode is "ABC123" and the rest is "/", and the shortcode read
from "https://site/p/p/ABC123/" is "p". -/
theorem extractShortcode_start_ending_in_slash_p :
    jsIncludes "/p/".toList "https://site/p".toList = false ∧
    "https://site/p" ++ "/p/" ++ "ABC123" ++ "/" = "https://site/p/p/ABC123/" ∧
    extractShortcode (.str "https://site/p/p/ABC123/") = .ok "p" ∧
    extractShortcode (.str "https://site/p/p/ABC123/") ≠ .ok "ABC123" := by
  refine ⟨by decide, by decide, by rfl, ?_⟩
  intro h
  have h2 : extractShortcode (.str "https://site/p/p/ABC123/") = .ok "p" := by rfl
  rw [h2] at h
  exact absurd (Except.ok.inj h) (by decide)

/-- Claim C18, as the expression behaves, at "https://site/p/ABC123/". -/
theorem extractShortcode_of_post_url_witness :
    '/' ∉ "ABC123".toList ∧ '?' ∉ "ABC123".toList ∧
    jsIncludes "/p/".toList ("https://site".toList ++ "/p".toList) = false ∧
    ("/".toList = [] ∨ "/".toList.head? = some '/' ∨ "/".toList.head? = some '?') ∧
    extractShortcode
        (.str (String.mk ("https://site".toList ++ "/p/".toList ++ "ABC123".toList ++
          "/".toList))) = .ok (String.mk "ABC123".toList) :=
  ⟨by decide, by decide, by decide, Or.inr (Or.inl (by decide)),
    extractShortcode_of_post_url "https://site".toList "ABC123".toList "/".toList
      (by decide) (by decide) (by decide) (Or.inr (Or.inl (by decide)))⟩

/-! ### The handler over the module -/

theorem postRun_like (ig : IgAutomation) (s : MemStorage) (userId : JSValue) (body : JSObject)
    (now1 now2 : String) (cookie0 : JSObject) (rest : List JSObject)
    (hc : s.getCookiesByUserId userId = cookie0 :: rest)
    (htype : body.get "type" = .str "like") (hurl : (body.get "postUrl").truthy = true) :
    postRun ig s userId body now1 now2 =
      runLogged s now1 now2
        [("userId", userId), ("type", body.get "type"),
          ("accountUsername", (body.get "username").or (.str "Unknown")),
          ("action", .str "Pending"), ("status", .str "pending")]
        ("Liked post: " ++ (body.get "postUrl").toStr) "likePost"
        [body.get "postUrl", cookie0.get "cookieValue"]
        (ig.likePost (body.get "postUrl") (cookie0.get "cookieValue")) := by
  unfold postRun
  simp [hc, htype, hurl]

theorem postRun_unlike (ig : IgAutomation) (s : MemStorage) (userId : JSValue)
    (body : JSObject) (now1 now2 : String) (cookie0 : JSObject) (rest : List JSObject)
    (hc : s.getCookiesByUserId userId = cookie0 :: rest)
    (htype : body.get "type" = .str "unlike") (hurl : (body.get "postUrl").truthy = true) :
    postRun ig s userId body now1 now2 =
      runLogged s now1 now2
        [("userId", userId), ("type", body.get "type"),
          ("accountUsername", (body.get "username").or (.str "Unknown")),
          ("action", .str "Pending"), ("status", .str "pending")]
        ("Unliked post: " ++ (body.get "postUrl").toStr) "unlikePost"
        [body.get "postUrl", cookie0.get "cookieValue"]
        (ig.unlikePost (body.get "postUrl") (cookie0.get "cookieValue")) := by
  unfold postRun
  simp [hc, htype, hurl]

theorem postRun_comment (ig : IgAutomation) (s : MemStorage) (userId : JSValue)
    (body : JSObject) (now1 now2 : String) (cookie0 : JSObject) (rest : List JSObject)
    (hc : s.getCookiesByUserId userId = cookie0 :: rest)
    (htype : body.get "type" = .str "comment") (hurl : (body.get "postUrl").truthy = true)
    (htext : (body.get "commentText").truthy = true) :
    postRun ig s userId body now1 now2 =
      runLogged s now1 now2
        [("userId", userId), ("type", body.get "type"),
          ("accountUsername", (body.get "username").or (.str "Unknown")),
          ("action", .str "Pending"), ("status", .str "pending")]
        ("Commented on post: " ++ (body.get "postUrl").toStr) "commentPost"
        [body.get "postUrl", body.get "commentText", cookie0.get "cookieValue"]
        (ig.commentPost (body.get "postUrl") (body.get "commentText")
          (cookie0.get "cookieValue")) := by
  unfold postRun
  simp [hc, htype, hurl, htext]

theorem postRun_duplicates (ig : IgAutomation) (s : MemStorage) (userId : JSValue)
    (body : JSObject) (now1 now2 : String) (cookie0 : JSObject) (rest : List JSObject)
    (hc : s.getCookiesByUserId userId = cookie0 :: rest)
    (htype : body.get "type" = .str "duplicates") :
    postRun ig s userId body now1 now2 =
      runLogged s now1 now2
        [("userId", userId), ("type", body.get "type"),
          ("accountUsername", (body.get "username").or (.str "Unknown")),
          ("action", .str "Pending"), ("status", .str "pending")]
        "Removed duplicate accounts" "removeDuplicateAccounts"
        [cookie0.get "cookieValue"]
        (ig.removeDuplicateAccounts (cookie0.get "cookieValue")) := by
  unfold postRun
  simp [hc, htype]

/-- A post variant on an address without `/p/` fails without a request, whatever
the cookie; with a cookie that is a string the message is the one of the
address check. -/
theorem postVariant_invalid_url (axios : Axios) (address : String → String) (data : JSObject)
    (errorWords doneWords failedWords : String) (postUrl : String) (cookieStr : JSValue)
    (h : jsIncludes "/p/".toList postUrl.toList = false) :
    (postVariant axios address data errorWords doneWords failedWords (.str postUrl)
      cookieStr).1.success = false ∧
    (postVariant axios address data errorWords doneWords failedWords (.str postUrl)
      cookieStr).2 = [] ∧
    ((∃ c, cookieStr = .str c) →
      (postVariant axios address data errorWords doneWords failedWords (.str postUrl)
        cookieStr).1.message = "Invalid post URL format") := by
  unfold postVariant
  cases hp : parseCookieString cookieStr with
  | error e =>
    refine ⟨rfl, rfl, ?_⟩
    rintro ⟨c, rfl⟩
    obtain ⟨cookies, hc⟩ := parseCookieString_str c
    rw [hc] at hp
    cases hp
  | ok cookies =>
    simp [extractShortcode_of_not_includes postUrl h]

/-- Claim C12, as the handler behaves.  A like, unlike or comment request whose
post address is a string without `/p/` (and, for a comment, with a text), from a
user with a cookie, on a store whose log counter is not yet a key of the log
table, is logged: a pending row is inserted, the variant of the kind is called
with the address and the value of the first cookie, it fails and makes no HTTP
request, the answer has status 200 and carries the failed outcome, and the log
table is the old table followed by one row of the user whose status ends as
failed. -/
theorem postRun_invalid_post_url (axios : Axios)
    (followUser unfollowUser getInstagramProfileInfo : JSValue → JSValue → Outcome)
    (s : MemStorage) (userId : JSValue) (body : JSObject) (now1 now2 : String)
    (t postUrl : String)
    (htype : body.get "type" = .str t)
    (hkind : t = "like" ∨ t = "unlike" ∨ t = "comment")
    (hurl : body.get "postUrl" = .str postUrl) (hpresent : postUrl ≠ "")
    (hbad : jsIncludes "/p/".toList postUrl.toList = false)
    (htext : t = "comment" → (body.get "commentText").truthy = true)
    (hcookies : s.getCookiesByUserId userId ≠ [])
    (hfresh : s.getActivityLog (.num s.logId) = none) :
    ∃ (row0 rowF : JSObject) (fn : String) (args : List JSValue) (o : Outcome),
      postRun (igAutomation axios followUser unfollowUser getInstagramProfileInfo)
          s userId body now1 now2 =
        ({ s with
            logId := s.logId + 1
            activityLogs := s.activityLogs ++ [(.num s.logId, rowF)] },
          { status := 200, body := .result o },
          [.createActivityLog row0, .call fn args o,
            .updateActivityLog (.num s.logId) [("status", .str "failed")]]) ∧
      o.success = false ∧
      (∃ cookie0, (s.getCookiesByUserId userId).head? = some cookie0 ∧
        (t = "like" → fn = "likePost" ∧
          args = [.str postUrl, cookie0.get "cookieValue"] ∧
          likePost axios (.str postUrl) (cookie0.get "cookieValue") = (o, [])) ∧
        (t = "unlike" → fn = "unlikePost" ∧
          args = [.str postUrl, cookie0.get "cookieValue"] ∧
          unlikePost axios (.str postUrl) (cookie0.get "cookieValue") = (o, [])) ∧
        (t = "comment" → fn = "commentPost" ∧
          args = [.str postUrl, body.get "commentText", cookie0.get "cookieValue"] ∧
          commentPost axios (.str postUrl) (body.get "commentText")
            (cookie0.get "cookieValue") = (o, []))) ∧
      ((∀ c ∈ (s.getCookiesByUserId userId).head?, ∃ v, c.get "cookieValue" = .str v) →
        o.message = "Invalid post URL format") ∧
      row0.get "status" = .str "pending" ∧
      rowF.get "id" = .num s.logId ∧
      rowF.get "userId" = userId ∧
      rowF.get "status" = .str "failed" := by
  have htruthy : (body.get "postUrl").truthy = true := by
    simp [hurl, JSValue.truthy, hpresent]
  cases hc : s.getCookiesByUserId userId with
  | nil => exact absurd hc hcookies
  | cons cookie0 rest =>
    have key : ∀ (action fn : String) (args : List JSValue) (o : Outcome),
        o.success = false →
        postRun (igAutomation axios followUser unfollowUser getInstagramProfileInfo)
            s userId body now1 now2 =
          runLogged s now1 now2
            [("userId", userId), ("type", body.get "type"),
              ("accountUsername", (body.get "username").or (.str "Unknown")),
              ("action", .str "Pending"), ("status", .str "pending")]
            action fn args o →
        ∃ (row0 rowF : JSObject),
          postRun (igAutomation axios followUser unfollowUser getInstagramProfileInfo)
              s userId body now1 now2 =
            ({ s with
                logId := s.logId + 1
                activityLogs := s.activityLogs ++ [(.num s.logId, rowF)] },
              { status := 200, body := .result o },
              [.createActivityLog row0, .call fn args o,
                .updateActivityLog (.num s.logId) [("status", .str "failed")]]) ∧
          row0.get "status" = .str "pending" ∧
          rowF.get "id" = .num s.logId ∧
          rowF.get "userId" = userId ∧
          rowF.get "status" = .str "failed" := by
      intro action fn args o hfail hrun
      rw [hrun, runLogged_eq _ _ _ _ _ _ _ _ hfresh]
      simp only [hfail, Bool.false_eq_true, if_false]
      obtain ⟨_, h2, h3, h4, h5⟩ := logged_row_fields userId (body.get "type")
        ((body.get "username").or (.str "Unknown")) action "failed" now1 now2 s.logId
      exact ⟨_, _, rfl, h2, h3, h4, h5⟩
    rcases hkind with rfl | rfl | rfl
    · have hv := postVariant_invalid_url axios
        (fun mediaId => "https://www.instagram.com/web/likes/" ++ mediaId ++ "/like/")
        [] "Error liking post: " "Successfully liked post: " "Failed to like post: "
        postUrl (cookie0.get "cookieValue") hbad
      have hrun := postRun_like
        (igAutomation axios followUser unfollowUser getInstagramProfileInfo)
        s userId body now1 now2 cookie0 rest hc htype htruthy
      rw [hurl] at hrun
      obtain ⟨row0, rowF, hpost, h2, h3, h4, h5⟩ := key _ _ _ _ hv.1 hrun
      exact ⟨row0, rowF, _, _, _, hpost, hv.1,
        ⟨cookie0, rfl, fun _ => ⟨rfl, rfl, Prod.ext rfl hv.2.1⟩,
          fun h => absurd h (by decide), fun h => absurd h (by decide)⟩,
        fun hstr => hv.2.2 (hstr cookie0 (by simp)), h2, h3, h4, h5⟩
    · have hv := postVariant_invalid_url axios
        (fun mediaId => "https://www.instagram.com/web/likes/" ++ mediaId ++ "/unlike/")
        [] "Error unliking post: " "Successfully unliked post: " "Failed to unlike post: "
        postUrl (cookie0.get "cookieValue") hbad
      have hrun := postRun_unlike
        (igAutomation axios followUser unfollowUser getInstagramProfileInfo)
        s userId body now1 now2 cookie0 rest hc htype htruthy
      rw [hurl] at hrun
      obtain ⟨row0, rowF, hpost, h2, h3, h4, h5⟩ := key _ _ _ _ hv.1 hrun
      exact ⟨row0, rowF, _, _, _, hpost, hv.1,
        ⟨cookie0, rfl, fun h => absurd h (by decide),
          fun _ => ⟨rfl, rfl, Prod.ext rfl hv.2.1⟩, fun h => absurd h (by decide)⟩,
        fun hstr => hv.2.2 (hstr cookie0 (by simp)), h2, h3, h4, h5⟩
    · have hv := postVariant_invalid_url axios
        (fun mediaId => "https://www.instagram.com/web/comments/" ++ mediaId ++ "/add/")
        [("comment_text", body.get "commentText")] "Error commenting on post: "
        "Successfully commented on post: " "Failed to comment on post: "
        postUrl (cookie0.get "cookieValue") hbad
      have hrun := postRun_comment
        (igAutomation axios followUser unfollowUser getInstagramProfileInfo)
        s userId body now1 now2 cookie0 rest hc htype htruthy (htext rfl)
      rw [hurl] at hrun
      obtain ⟨row0, rowF, hpost, h2, h3, h4, h5⟩ := key _ _ _ _ hv.1 hrun
      exact ⟨row0, rowF, _, _, _, hpost, hv.1,
        ⟨cookie0, rfl, fun h => absurd h (by decide), fun h => absurd h (by decide),
          fun _ => ⟨rfl, rfl, Prod.ext rfl hv.2.1⟩⟩,
        fun hstr => hv.2.2 (hstr cookie0 (by simp)), h2, h3, h4, h5⟩

/-- Claim C12, as stated, fails: user 1 of the sample store asks to like the
address "https://site/ABC123/", which has no `/p/`; the answer has status 200
and the log table has gained a row. -/
theorem invalid_post_url_is_logged :
    badLikeBody.get "type" = .str "like" ∧
    badLikeBody.get "postUrl" = .str "https://site/ABC123/" ∧
    jsIncludes "/p/".toList "https://site/ABC123/".toList = false ∧
    sampleStore.getCookiesByUserId (.num 1) ≠ [] ∧
    (postRun sampleModule sampleStore (.num 1) badLikeBody "t1" "t2").2.1.status = 200 ∧
    sampleStore.activityLogs.length = 3 ∧
    (postRun sampleModule sampleStore (.num 1) badLikeBody "t1" "t2").1.activityLogs.length
      = 4 ∧
    (postRun sampleModule sampleStore (.num 1) badLikeBody "t1" "t2").1.activityLogs ≠
      sampleStore.activityLogs := by
  decide

/-- Claim C17, as the handler behaves.  The tag of the placeholder is
"duplicates".  A request of that kind from a user with a cookie, on a store
whose log counter is not yet a key of the log table, calls
`removeDuplicateAccounts`, which makes no request; the answer has status 200 and
an outcome with `success` true, and the log table gains one row of the user
whose status ends as success. -/
theorem postRun_duplicates_succeeds (axios : Axios)
    (followUser unfollowUser getInstagramProfileInfo : JSValue → JSValue → Outcome)
    (s : MemStorage) (userId : JSValue) (body : JSObject) (now1 now2 : String)
    (htype : body.get "type" = .str "duplicates")
    (hcookies : s.getCookiesByUserId userId ≠ [])
    (hfresh : s.getActivityLog (.num s.logId) = none) :
    ∃ (row0 rowF : JSObject) (args : List JSValue) (o : Outcome),
      postRun (igAutomation axios followUser unfollowUser getInstagramProfileInfo)
          s userId body now1 now2 =
        ({ s with
            logId := s.logId + 1
            activityLogs := s.activityLogs ++ [(.num s.logId, rowF)] },
          { status := 200, body := .result o },
          [.createActivityLog row0, .call "removeDuplicateAccounts" args o,
            .updateActivityLog (.num s.logId) [("status", .str "success")]]) ∧
      o.success = true ∧
      (∀ cookieStr, removeDuplicateAccounts cookieStr = (o, [])) ∧
      row0.get "status" = .str "pending" ∧
      rowF.get "id" = .num s.logId ∧
      rowF.get "userId" = userId ∧
      rowF.get "status" = .str "success" := by
  cases hc : s.getCookiesByUserId userId with
  | nil => exact absurd hc hcookies
  | cons cookie0 rest =>
    have ho : (igAutomation axios followUser unfollowUser
        getInstagramProfileInfo).removeDuplicateAccounts (cookie0.get "cookieValue") =
        { success := true,
          message := "Duplicate account check completed. No duplicates found." } := rfl
    rw [postRun_duplicates _ s userId body now1 now2 cookie0 rest hc htype,
      runLogged_eq _ _ _ _ _ _ _ _ hfresh, ho]
    simp only [if_true]
    obtain ⟨_, h2, h3, h4, h5⟩ := logged_row_fields userId (body.get "type")
      ((body.get "username").or (.str "Unknown")) "Removed duplicate accounts" "success"
      now1 now2 s.logId
    exact ⟨_, _, _, _, rfl, rfl, fun _ => rfl, h2, h3, h4, h5⟩

/-- Claim C17, as stated, fails: for the kind "dedupe" from user 1 of the sample
store, who has a cookie, the answer carries the outcome with `success` false
and the message "Unknown automation type", no variant is called and no row is
logged. -/
theorem dedupe_is_not_a_known_tag :
    dedupeBody.get "type" = .str "dedupe" ∧
    sampleStore.getCookiesByUserId (.num 1) ≠ [] ∧
    postRun sampleModule sampleStore (.num 1) dedupeBody "t1" "t2" =
      (sampleStore,
        { status := 200,
          body := .result { success := false, message := "Unknown automation type" } },
        []) := by
  decide

/-- Every answer of the handler either leaves the store alone and calls no
variant, or comes from the logged part of a case. -/
theorem postRun_cases (ig : IgAutomation) (s : MemStorage) (userId : JSValue) (body : JSObject)
    (now1 now2 : String) (P : MemStorage × Response × List Event → Prop)
    (hquiet : ∀ res, P (s, res, []))
    (hlogged : ∀ (logEntry : JSObject) (action fn : String) (args : List JSValue) (o : Outcome),
      P (runLogged s now1 now2 logEntry action fn args o)) :
    P (postRun ig s userId body now1 now2) := by
  unfold postRun
  cases hc : s.getCookiesByUserId userId with
  | nil => exact hquiet _
  | cons cookie0 rest =>
    simp only []
    repeat' split
    all_goals first
      | exact hquiet _
      | exact hlogged _ _ _ _ _

theorem JSMap.get_append_of_some (m l : JSMap) (k : JSValue) (v : JSObject)
    (h : m.get k = some v) : (m ++ l).get k = some v := by
  induction m with
  | nil => simp [JSMap.get] at h
  | cons e rest ih =>
    obtain ⟨k', v'⟩ := e
    by_cases hk : k' = k
    · simpa [JSMap.get, hk] using h
    · simp only [JSMap.get, hk, if_false] at h
      simpa [JSMap.get, hk] using ih h

/-- Claim C14.  On a store whose log counter is not yet a key of the log table,
for every request: the log table after the handler is the table before it,
followed by at most one new row; every row found before is found unchanged
under the same id; and an update that the handler makes goes to the id of the
row that the same request inserted, which was no row of the table before. -/
theorem postRun_keeps_existing_logs (ig : IgAutomation) (s : MemStorage) (userId : JSValue)
    (body : JSObject) (now1 now2 : String)
    (hfresh : s.getActivityLog (.num s.logId) = none) :
    (∃ extra, (postRun ig s userId body now1 now2).1.activityLogs = s.activityLogs ++ extra ∧
      extra.length ≤ 1) ∧
    (∀ k row, s.getActivityLog k = some row →
      (postRun ig s userId body now1 now2).1.getActivityLog k = some row) ∧
    (∀ id updates, Event.updateActivityLog id updates ∈ (postRun ig s userId body now1 now2).2.2 →
      s.getActivityLog id = none ∧
      ∃ row, Event.createActivityLog row ∈ (postRun ig s userId body now1 now2).2.2 ∧
        row.get "id" = id) := by
  refine postRun_cases ig s userId body now1 now2
    (fun r => (∃ extra, r.1.activityLogs = s.activityLogs ++ extra ∧ extra.length ≤ 1) ∧
      (∀ k row, s.getActivityLog k = some row → r.1.getActivityLog k = some row) ∧
      (∀ id updates, Event.updateActivityLog id updates ∈ r.2.2 →
        s.getActivityLog id = none ∧
        ∃ row, Event.createActivityLog row ∈ r.2.2 ∧ row.get "id" = id)) ?_ ?_
  · intro res
    exact ⟨⟨[], by simp⟩, fun k row hk => hk, fun id updates hmem => by simp at hmem⟩
  · intro le action fn args o
    rw [runLogged_eq _ _ _ _ _ _ _ _ hfresh]
    refine ⟨⟨_, rfl, by simp⟩, fun k row hk => ?_, fun id updates hmem => ?_⟩
    · exact JSMap.get_append_of_some _ _ _ _ hk
    · simp only [List.mem_cons, Event.updateActivityLog.injEq, List.mem_singleton,
        List.not_mem_nil, or_false, false_or, reduceCtorEq] at hmem
      obtain ⟨rfl, _⟩ := hmem
      exact ⟨hfresh, _, List.mem_cons_self _ _, MemStorage.stamp_id _ _ _⟩

/-! ### Objects: distinct property names and spreading -/

theorem JSObject.mem_names_set (o : JSObject) (k : String) (v : JSValue) (k' : String)
    (h : k' ∈ (o.set k v).map Prod.fst) : k' = k ∨ k' ∈ o.map Prod.fst := by
  induction o with
  | nil => simpa [JSObject.set] using h
  | cons e rest ih =>
    obtain ⟨k₀, v₀⟩ := e
    by_cases h0 : k₀ = k
    · simp only [JSObject.set, h0, if_true, List.map_cons, List.mem_cons] at h ⊢
      rcases h with h | h
      · exact Or.inl h
      · exact Or.inr (Or.inr h)
    · simp only [JSObject.set, h0, if_false, List.map_cons, List.mem_cons] at h ⊢
      rcases h with h | h
      · exact Or.inr (Or.inl h)
      · rcases ih h with h | h
        · exact Or.inl h
        · exact Or.inr (Or.inr h)

theorem JSObject.distinctKeys_set (o : JSObject) (k : String) (v : JSValue)
    (h : o.DistinctKeys) : (o.set k v).DistinctKeys := by
  unfold JSObject.DistinctKeys at h ⊢
  induction o with
  | nil => simp [JSObject.set]
  | cons e rest ih =>
    obtain ⟨k₀, v₀⟩ := e
    simp only [List.map_cons, List.nodup_cons] at h
    by_cases h0 : k₀ = k
    · subst h0
      simpa [JSObject.set] using h
    · simp only [JSObject.set, h0, if_false, List.map_cons, List.nodup_cons]
      refine ⟨fun hmem => ?_, ih h.2⟩
      rcases JSObject.mem_names_set rest k v k₀ hmem with h1 | h1
      · exact h0 h1
      · exact h.1 h1

theorem JSObject.distinctKeys_spread (base ext : JSObject) (h : base.DistinctKeys) :
    (JSObject.spread base ext).DistinctKeys := by
  unfold JSObject.spread
  induction ext generalizing base with
  | nil => simpa using h
  | cons e rest ih => simpa using ih _ (JSObject.distinctKeys_set base e.1 e.2 h)

theorem JSObject.distinctKeys_stamp (data : JSObject) (id : Nat) (now : String) :
    (MemStorage.stamp data id now).DistinctKeys := by
  unfold MemStorage.stamp
  exact JSObject.distinctKeys_set _ _ _ (JSObject.distinctKeys_set _ _ _
    (JSObject.distinctKeys_set _ _ _ (JSObject.distinctKeys_spread [] data List.nodup_nil)))

theorem JSObject.read_of_not_mem (o : JSObject) (k : String) (h : ∀ e ∈ o, e.1 ≠ k) :
    o.get k = .undefined := by
  induction o with
  | nil => rfl
  | cons e rest ih =>
    obtain ⟨k₀, v₀⟩ := e
    have h0 : k₀ ≠ k := h (k₀, v₀) (List.mem_cons_self _ _)
    simp only [JSObject.get, h0, if_false]
    exact ih fun e he => h e (List.mem_cons_of_mem _ he)

theorem JSObject.read_of_mem (o : JSObject) (k : String) (v : JSValue) (hd : o.DistinctKeys)
    (h : (k, v) ∈ o) : o.get k = v := by
  unfold JSObject.DistinctKeys at hd
  induction o with
  | nil => simp at h
  | cons e rest ih =>
    obtain ⟨k₀, v₀⟩ := e
    simp only [List.map_cons, List.nodup_cons] at hd
    rcases List.mem_cons.mp h with h | h
    · cases h
      simp [JSObject.get]
    · have h0 : k₀ ≠ k := fun heq =>
        hd.1 (heq ▸ List.mem_map.mpr ⟨(k, v), h, rfl⟩)
      simp only [JSObject.get, h0, if_false]
      exact ih hd.2 h

theorem JSObject.read_spread_of_not_mem (base ext : JSObject) (k : String)
    (h : ∀ e ∈ ext, e.1 ≠ k) : (JSObject.spread base ext).get k = base.get k := by
  unfold JSObject.spread
  induction ext generalizing base with
  | nil => rfl
  | cons e rest ih =>
    rw [List.foldl_cons, ih _ (fun x hx => h x (List.mem_cons_of_mem _ hx)),
      JSObject.read_set_ne _ _ _ _ (h e (List.mem_cons_self _ _))]

theorem JSObject.read_spread_of_mem (base ext : JSObject) (k : String) (v : JSValue)
    (hd : ext.DistinctKeys) (h : (k, v) ∈ ext) : (JSObject.spread base ext).get k = v := by
  unfold JSObject.DistinctKeys at hd
  induction ext generalizing base with
  | nil => simp at h
  | cons e rest ih =>
    simp only [List.map_cons, List.nodup_cons] at hd
    rcases List.mem_cons.mp h with h | h
    · subst h
      have hrest : ∀ x ∈ rest, x.1 ≠ k := fun x hx heq =>
        hd.1 (heq ▸ List.mem_map.mpr ⟨x, hx, rfl⟩)
      have := JSObject.read_spread_of_not_mem (base.set k v) rest k hrest
      unfold JSObject.spread at this ⊢
      rw [List.foldl_cons, this, JSObject.read_set_self]
    · have := ih (base.set e.1 e.2) hd.2 h
      unfold JSObject.spread at this ⊢
      rw [List.foldl_cons, this]

/-- Spreading an object with distinct property names into the empty object gives
an object that reads the same. -/
theorem JSObject.read_spread_nil (o : JSObject) (k : String) (hd : o.DistinctKeys) :
    (JSObject.spread [] o).get k = o.get k := by
  by_cases hk : ∃ v, (k, v) ∈ o
  · obtain ⟨v, hv⟩ := hk
    rw [JSObject.read_spread_of_mem [] o k v hd hv, JSObject.read_of_mem o k v hd hv]
  · have hno : ∀ e ∈ o, e.1 ≠ k := fun e he heq => hk ⟨e.2, by rw [← heq]; exact he⟩
    rw [JSObject.read_spread_of_not_mem [] o k hno, JSObject.read_of_not_mem o k hno]
    rfl

/-! ### Updating a log -/

/-- Claim C13.  On a store whose log rows have distinct property names, with
updates that have distinct property names: `updateActivityLog` throws exactly
when no log is stored under the id, and then the store is as it was and the
error says that the log was not found; otherwise it returns a record that is
stored under the id in place of the old one, in which `updatedAt` is the time
of the call, every other field of the updates has the value of the updates, and
every remaining field reads as in the old record. -/
theorem updateActivityLog_spec (s : MemStorage) (now : String) (id : JSValue)
    (updates : JSObject)
    (hrows : ∀ e ∈ s.activityLogs, e.2.DistinctKeys) (hupdates : updates.DistinctKeys) :
    ((∃ e, (s.updateActivityLog now id updates).2 = .error e) ↔ s.getActivityLog id = none) ∧
    (s.getActivityLog id = none →
      s.updateActivityLog now id updates =
        (s, .error (.error ("Activity log with ID " ++ id.toStr ++ " not found")))) ∧
    (∀ log, s.getActivityLog id = some log →
      ∃ r, s.updateActivityLog now id updates =
          ({ s with activityLogs := s.activityLogs.set id r }, .ok r) ∧
        (s.updateActivityLog now id updates).1.getActivityLog id = some r ∧
        r.get "updatedAt" = .str now ∧
        (∀ k v, (k, v) ∈ updates → k ≠ "updatedAt" → r.get k = v) ∧
        (∀ k, k ≠ "updatedAt" → (∀ e ∈ updates, e.1 ≠ k) → r.get k = log.get k)) := by
  cases hg : s.activityLogs.get id with
  | none =>
    have hrun : s.updateActivityLog now id updates =
        (s, .error (.error ("Activity log with ID " ++ id.toStr ++ " not found"))) := by
      simp only [MemStorage.updateActivityLog, hg]
    refine ⟨⟨fun _ => hg, fun _ => ⟨_, by rw [hrun]⟩⟩, fun _ => hrun, fun log hlog => ?_⟩
    rw [MemStorage.getActivityLog, hg] at hlog
    cases hlog
  | some log =>
    have hrun : s.updateActivityLog now id updates =
        ({ s with
            activityLogs := (s.activityLogs.set id
              (((JSObject.spread [] log).spread updates).set "updatedAt" (.str now))) },
          .ok (((JSObject.spread [] log).spread updates).set "updatedAt" (.str now))) := by
      simp only [MemStorage.updateActivityLog, hg]
    have hlogd : log.DistinctKeys := hrows (id, log) (JSMap.mem_of_get_some _ _ _ hg)
    refine ⟨⟨fun ⟨e, he⟩ => ?_, fun h => ?_⟩, fun h => ?_, fun log' hlog' => ?_⟩
    · rw [hrun] at he; cases he
    · rw [MemStorage.getActivityLog, hg] at h; cases h
    · rw [MemStorage.getActivityLog, hg] at h; cases h
    · rw [MemStorage.getActivityLog, hg] at hlog'
      cases hlog'
      refine ⟨_, hrun, ?_, JSObject.read_set_self _ _ _, ?_, ?_⟩
      · rw [hrun]; exact JSMap.get_set_self _ _ _
      · intro k v hkv hk
        rw [JSObject.read_set_ne _ _ _ _ (Ne.symm hk),
          JSObject.read_spread_of_mem _ updates k v hupdates hkv]
      · intro k hk hno
        rw [JSObject.read_set_ne _ _ _ _ (Ne.symm hk),
          JSObject.read_spread_of_not_mem _ updates k hno,
          JSObject.read_spread_nil log k hlogd]

/-- Claim C13 at the sample store: log 1 gets the status success. -/
theorem updateActivityLog_spec_witness :
    (∀ e ∈ sampleStore.activityLogs, e.2.DistinctKeys) ∧ statusUpdate.DistinctKeys ∧
    (((∃ e, (sampleStore.updateActivityLog "t9" (.num 1) statusUpdate).2 = .error e) ↔
        sampleStore.getActivityLog (.num 1) = none) ∧
    (sampleStore.getActivityLog (.num 1) = none →
      sampleStore.updateActivityLog "t9" (.num 1) statusUpdate =
        (sampleStore,
          .error (.error ("Activity log with ID " ++ (JSValue.num 1).toStr ++ " not found")))) ∧
    (∀ log, sampleStore.getActivityLog (.num 1) = some log →
      ∃ r, sampleStore.updateActivityLog "t9" (.num 1) statusUpdate =
          ({ sampleStore with activityLogs := sampleStore.activityLogs.set (.num 1) r },
            .ok r) ∧
        (sampleStore.updateActivityLog "t9" (.num 1) statusUpdate).1.getActivityLog (.num 1)
          = some r ∧
        r.get "updatedAt" = .str "t9" ∧
        (∀ k v, (k, v) ∈ statusUpdate → k ≠ "updatedAt" → r.get k = v) ∧
        (∀ k, k ≠ "updatedAt" → (∀ e ∈ statusUpdate, e.1 ≠ k) → r.get k = log.get k))) :=
  ⟨by decide, by decide,
    updateActivityLog_spec sampleStore "t9" (.num 1) statusUpdate (by decide) (by decide)⟩

/-! ### The cookies of a user -/

theorem head?_filter_eq_find? {α : Type} (p : α → Bool) (l : List α) :
    (l.filter p).head? = l.find? p := by
  induction l with
  | nil => rfl
  | cons a rest ih =>
    by_cases hp : p a = true
    · simp [List.filter, List.find?, hp]
    · simp [List.filter, List.find?, hp, ih]

theorem any_map_filter {α β : Type} (l : List α) (p : α → Bool) (f : α → β) (q : β → Bool) :
    ((l.filter p).map f).any q = l.any (fun a => p a && q (f a)) := by
  induction l with
  | nil => rfl
  | cons a rest ih =>
    by_cases hp : p a = true
    · simp [List.filter, hp, ih]
    · simp [List.filter, hp, ih]

/-- Claim C15.  `getCookiesByUserId` returns the cookies of the table, in the
order of the table, whose `accountId` is the id of an account of the table
whose `userId` is the given one; so its first element is the first such cookie
of the table.  On a table whose cookies stand in the order of their ids, the
result is in the order of the ids and its first element has the smallest id. -/
theorem getCookiesByUserId_spec (s : MemStorage) (userId : JSValue)
    (hascending : s.cookies.values.Pairwise IdBelow) :
    s.getCookiesByUserId userId =
      s.cookies.values.filter (fun cookie =>
        s.instagramAccounts.values.any (fun account =>
          (account.get "userId").strictEq userId &&
            decide (account.get "id" = cookie.get "accountId"))) ∧
    (∀ c, c ∈ s.getCookiesByUserId userId ↔
      c ∈ s.cookies.values ∧ ∃ a ∈ s.instagramAccounts.values,
        (a.get "userId").strictEq userId = true ∧ a.get "id" = c.get "accountId") ∧
    (s.getCookiesByUserId userId).Sublist s.cookies.values ∧
    (s.getCookiesByUserId userId).head? =
      s.cookies.values.find? (fun cookie =>
        s.instagramAccounts.values.any (fun account =>
          (account.get "userId").strictEq userId &&
            decide (account.get "id" = cookie.get "accountId"))) ∧
    (s.getCookiesByUserId userId).Pairwise IdBelow ∧
    (∀ c0 rest, s.getCookiesByUserId userId = c0 :: rest → ∀ c ∈ rest, IdBelow c0 c) := by
  have heq : s.getCookiesByUserId userId =
      s.cookies.values.filter (fun cookie =>
        s.instagramAccounts.values.any (fun account =>
          (account.get "userId").strictEq userId &&
            decide (account.get "id" = cookie.get "accountId"))) := by
    simp only [MemStorage.getCookiesByUserId, MemStorage.getInstagramAccounts, any_map_filter]
  have hsub : (s.getCookiesByUserId userId).Sublist s.cookies.values := by
    rw [heq]; exact List.filter_sublist _
  have hpair : (s.getCookiesByUserId userId).Pairwise IdBelow := hascending.sublist hsub
  refine ⟨heq, fun c => ?_, hsub, ?_, hpair, fun c0 rest h => ?_⟩
  · rw [heq]
    simp only [List.mem_filter, List.any_eq_true, Bool.and_eq_true, decide_eq_true_eq]
  · rw [heq, head?_filter_eq_find?]
  · rw [h] at hpair
    exact (List.pairwise_cons.mp hpair).1

/-- Claim C15 at the sample store: the cookies of user 1. -/
theorem getCookiesByUserId_spec_witness :
    sampleStore.cookies.values.Pairwise IdBelow ∧
    (sampleStore.getCookiesByUserId (.num 1) =
      sampleStore.cookies.values.filter (fun cookie =>
        sampleStore.instagramAccounts.values.any (fun account =>
          (account.get "userId").strictEq (.num 1) &&
            decide (account.get "id" = cookie.get "accountId"))) ∧
    (∀ c, c ∈ sampleStore.getCookiesByUserId (.num 1) ↔
      c ∈ sampleStore.cookies.values ∧ ∃ a ∈ sampleStore.instagramAccounts.values,
        (a.get "userId").strictEq (.num 1) = true ∧ a.get "id" = c.get "accountId") ∧
    (sampleStore.getCookiesByUserId (.num 1)).Sublist sampleStore.cookies.values ∧
    (sampleStore.getCookiesByUserId (.num 1)).head? =
      sampleStore.cookies.values.find? (fun cookie =>
        sampleStore.instagramAccounts.values.any (fun account =>
          (account.get "userId").strictEq (.num 1) &&
            decide (account.get "id" = cookie.get "accountId"))) ∧
    (sampleStore.getCookiesByUserId (.num 1)).Pairwise IdBelow ∧
    (∀ c0 rest, sampleStore.getCookiesByUserId (.num 1) = c0 :: rest →
      ∀ c ∈ rest, IdBelow c0 c)) := by
  have hasc : sampleStore.cookies.values.Pairwise IdBelow := by
    simp only [sampleStore, JSMap.values, List.map_cons, List.map_nil, List.pairwise_cons,
      List.mem_cons, List.mem_singleton, List.not_mem_nil, IdBelow, forall_eq_or_imp, forall_eq,
      List.Pairwise.nil, and_true, IsEmpty.forall_iff, implies_true]
    refine ⟨⟨⟨1, 2, rfl, rfl, by decide⟩, ⟨1, 3, rfl, rfl, by decide⟩,
        ⟨1, 4, rfl, rfl, by decide⟩⟩,
      ⟨⟨2, 3, rfl, rfl, by decide⟩, ⟨2, 4, rfl, rfl, by decide⟩⟩,
      ⟨3, 4, rfl, rfl, by decide⟩⟩
  exact ⟨hasc, getCookiesByUserId_spec sampleStore (.num 1) hasc⟩

/-! ### What `deleteUser` leaves alone -/

theorem JSMap.mem_foldl_delete_of_forall_ne (l : List JSObject) (m : JSMap)
    (e : JSValue × JSObject) (he : e ∈ m) (hne : ∀ r ∈ l, r.get "id" ≠ e.1) :
    e ∈ l.foldl (fun acc r => acc.delete (r.get "id")) m := by
  induction l generalizing m with
  | nil => simpa using he
  | cons r rest ih =>
    rw [List.foldl_cons]
    refine ih _ (JSMap.mem_delete_of_ne m _ e he ?_) (fun x hx => hne x (List.mem_cons_of_mem _ hx))
    exact Ne.symm (hne r (List.mem_cons_self _ _))

/-- In a table keyed by id, a record of the table that carries the key of an
entry as its id is the record of that entry. -/
theorem JSMap.KeyedById.record_eq (m : JSMap) (hkey : m.KeyedById) (e : JSValue × JSObject)
    (he : e ∈ m) (r : JSObject) (hr : r ∈ m.values) (hid : r.get "id" = e.1) : r = e.2 := by
  obtain ⟨k, hk⟩ := (JSMap.mem_values_iff m r).mp hr
  have hkid : r.get "id" = k := hkey.2 (k, r) hk
  have hfst : (k, r).1 = e.1 := by rw [← hkid, hid]
  have := List.inj_on_of_nodup_map hkey.1 hk he hfst
  rw [← this]

namespace MemStorage

theorem foldl_deleteAccount_accounts (l : List JSObject) (s : MemStorage) :
    (l.foldl (fun st a => st.deleteInstagramAccount (a.get "id")) s).instagramAccounts =
      l.foldl (fun acc a => acc.delete (a.get "id")) s.instagramAccounts := by
  induction l generalizing s with
  | nil => rfl
  | cons a rest ih =>
    rw [List.foldl_cons, List.foldl_cons, ih, deleteInstagramAccount_eq]

/-- A cookie that refers to none of the accounts of the loop stays in the cookie
table through the accounts loop of `deleteUser`. -/
theorem foldl_deleteAccount_cookie_kept (l : List JSObject) (s0 st : MemStorage)
    (e : JSValue × JSObject) (hkey : s0.cookies.KeyedById)
    (hsub : ∀ x ∈ st.cookies, x ∈ s0.cookies) (he0 : e ∈ s0.cookies) (he : e ∈ st.cookies)
    (hnot : ∀ a ∈ l, (e.2.get "accountId").strictEq (a.get "id") = false) :
    e ∈ (l.foldl (fun st a => st.deleteInstagramAccount (a.get "id")) st).cookies := by
  induction l generalizing st with
  | nil => simpa using he
  | cons a rest ih =>
    rw [List.foldl_cons]
    have hstep : e ∈ (st.deleteInstagramAccount (a.get "id")).cookies := by
      rw [deleteInstagramAccount_eq]
      refine JSMap.mem_foldl_delete_of_forall_ne _ _ e he (fun c hc hid => ?_)
      obtain ⟨hcv, hca⟩ := List.mem_filter.mp hc
      have hcv0 : c ∈ s0.cookies.values := by
        obtain ⟨k, hk⟩ := (JSMap.mem_values_iff _ _).mp hcv
        exact (JSMap.mem_values_iff _ _).mpr ⟨k, hsub _ hk⟩
      have hce : c = e.2 := JSMap.KeyedById.record_eq _ hkey e he0 c hcv0 hid
      rw [hce, hnot a (List.mem_cons_self _ _)] at hca
      cases hca
    refine ih _ (fun x hx => ?_) hstep (fun b hb => hnot b (List.mem_cons_of_mem _ hb))
    rw [deleteInstagramAccount_eq] at hx
    exact hsub x (JSMap.mem_of_mem_foldl_delete _ _ _ hx)

end MemStorage

/-- Claim C19, as the method behaves.  On a store whose accounts, cookies and
logs are keyed by id, `deleteUser U` keeps every user stored under another key,
every account whose `userId` is not `U`, every cookie whose `accountId` is the
id of no account of `U`, and every log whose `userId` is not `U`, each with its
record as it was; and it keeps the four counters. -/
theorem deleteUser_frame (s : MemStorage) (getTime : JSValue → Option Int) (U : JSValue)
    (haccounts : s.instagramAccounts.KeyedById) (hcookies : s.cookies.KeyedById)
    (hlogs : s.activityLogs.KeyedById) :
    (∀ e ∈ s.users, e.1 ≠ U → e ∈ (s.deleteUser getTime U).users) ∧
    (∀ e ∈ s.instagramAccounts, (e.2.get "userId").strictEq U = false →
      e ∈ (s.deleteUser getTime U).instagramAccounts) ∧
    (∀ e ∈ s.cookies,
      (∀ a ∈ s.getInstagramAccounts U, (e.2.get "accountId").strictEq (a.get "id") = false) →
      e ∈ (s.deleteUser getTime U).cookies) ∧
    (∀ e ∈ s.activityLogs, (e.2.get "userId").strictEq U = false →
      e ∈ (s.deleteUser getTime U).activityLogs) ∧
    (s.deleteUser getTime U).userId = s.userId ∧
    (s.deleteUser getTime U).accountId = s.accountId ∧
    (s.deleteUser getTime U).cookieId = s.cookieId ∧
    (s.deleteUser getTime U).logId = s.logId := by
  refine ⟨?_, ?_, ?_, ?_, MemStorage.deleteUser_counter s getTime U .users,
    MemStorage.deleteUser_counter s getTime U .instagramAccounts,
    MemStorage.deleteUser_counter s getTime U .cookies,
    MemStorage.deleteUser_counter s getTime U .activityLogs⟩
  · intro e he hne
    rw [MemStorage.deleteUser_eq]
    exact JSMap.mem_delete_of_ne _ _ e he hne
  · intro e he hu
    rw [MemStorage.deleteUser_eq]
    show e ∈ ((s.getInstagramAccounts U).foldl
      (fun st account => st.deleteInstagramAccount (account.get "id")) s).instagramAccounts
    rw [MemStorage.foldl_deleteAccount_accounts]
    refine JSMap.mem_foldl_delete_of_forall_ne _ _ e he (fun a ha hid => ?_)
    obtain ⟨hav, hau⟩ := List.mem_filter.mp ha
    have hae : a = e.2 := JSMap.KeyedById.record_eq _ haccounts e he a hav hid
    rw [hae, hu] at hau
    cases hau
  · intro e he hnot
    rw [MemStorage.deleteUser_eq]
    exact MemStorage.foldl_deleteAccount_cookie_kept _ s s e hcookies (fun x hx => hx) he he hnot
  · intro e he hu
    rw [MemStorage.deleteUser_eq]
    refine JSMap.mem_foldl_delete_of_forall_ne _ _ e he (fun l hl hid => ?_)
    obtain ⟨hlv, hlu⟩ := List.mem_filter.mp ((mem_arraySort _ _ _).mp hl)
    have hle : l = e.2 := JSMap.KeyedById.record_eq _ hlogs e he l hlv hid
    rw [hle, hu] at hlu
    cases hlu

/-- Claim C19, as stated, fails on a store built by the store methods: after
an update gave the log of user 1 the id 2, `deleteUser 1` removes the log of
user 2 that is stored under key 2. -/
theorem deleteUser_removes_foreign_log :
    (∃ e ∈ crossedStore.activityLogs, e.1 = .num 2 ∧
      (e.2.get "userId").strictEq (.num 1) = false) ∧
    crossedStore.getActivityLog (.num 2) ≠ none ∧
    (crossedStore.deleteUser (fun _ => none) (.num 1)).getActivityLog (.num 2) = none := by
  decide

/-- Claim C19, as the method behaves, at the sample store: deleting user 1. -/
theorem deleteUser_frame_witness :
    sampleStore.instagramAccounts.KeyedById ∧ sampleStore.cookies.KeyedById ∧
    sampleStore.activityLogs.KeyedById ∧
    ((∀ e ∈ sampleStore.users, e.1 ≠ .num 1 →
      e ∈ (sampleStore.deleteUser sampleGetTime (.num 1)).users) ∧
    (∀ e ∈ sampleStore.instagramAccounts, (e.2.get "userId").strictEq (.num 1) = false →
      e ∈ (sampleStore.deleteUser sampleGetTime (.num 1)).instagramAccounts) ∧
    (∀ e ∈ sampleStore.cookies,
      (∀ a ∈ sampleStore.getInstagramAccounts (.num 1),
        (e.2.get "accountId").strictEq (a.get "id") = false) →
      e ∈ (sampleStore.deleteUser sampleGetTime (.num 1)).cookies) ∧
    (∀ e ∈ sampleStore.activityLogs, (e.2.get "userId").strictEq (.num 1) = false →
      e ∈ (sampleStore.deleteUser sampleGetTime (.num 1)).activityLogs) ∧
    (sampleStore.deleteUser sampleGetTime (.num 1)).userId = sampleStore.userId ∧
    (sampleStore.deleteUser sampleGetTime (.num 1)).accountId = sampleStore.accountId ∧
    (sampleStore.deleteUser sampleGetTime (.num 1)).cookieId = sampleStore.cookieId ∧
    (sampleStore.deleteUser sampleGetTime (.num 1)).logId = sampleStore.logId) :=
  ⟨by decide, by decide, by decide,
    deleteUser_frame sampleStore sampleGetTime (.num 1) (by decide) (by decide) (by decide)⟩

/-! ### Records and their keys along a sequence of calls -/

namespace MemStorage

/-- Every call keeps the users stored under their own ids. -/
theorem call_users_keyed (getTime : JSValue → Option Int) (s : MemStorage) (c : Call)
    (h : ∀ e ∈ s.users, e.2.get "id" = e.1) :
    ∀ e ∈ (s.call getTime c).1.users, e.2.get "id" = e.1 := by
  intro e he
  cases c with
  | createUser now data =>
    simp only [call, createUser] at he
    rcases JSMap.mem_of_mem_set _ _ _ _ he with rfl | he
    · exact stamp_id _ _ _
    · exact h e he
  | deleteUser id =>
    simp only [call, deleteUser_eq] at he
    exact h e (JSMap.mem_of_mem_delete _ _ _ he)
  | createInstagramAccount now data => exact h e he
  | deleteInstagramAccount id =>
    simp only [call, deleteInstagramAccount_eq] at he
    exact h e he
  | createCookie now data => exact h e he
  | deleteCookie id => exact h e he
  | createActivityLog now data => exact h e he
  | updateActivityLog now id updates =>
    simp only [call, updateActivityLog] at he
    cases hg : s.activityLogs.get id <;> simp only [hg] at he <;> exact h e he

/-- Every call keeps the accounts stored under their own ids: no call adds an
account. -/
theorem call_accounts_keyed (getTime : JSValue → Option Int) (s : MemStorage) (c : Call)
    (h : ∀ e ∈ s.instagramAccounts, e.2.get "id" = e.1) :
    ∀ e ∈ (s.call getTime c).1.instagramAccounts, e.2.get "id" = e.1 := by
  intro e he
  cases c with
  | createUser now data => exact h e he
  | deleteUser id =>
    simp only [call, deleteUser_eq] at he
    rw [foldl_deleteAccount_accounts] at he
    exact h e (JSMap.mem_of_mem_foldl_delete _ _ _ he)
  | createInstagramAccount now data => exact h e he
  | deleteInstagramAccount id =>
    simp only [call, deleteInstagramAccount_eq] at he
    exact h e (JSMap.mem_of_mem_delete _ _ _ he)
  | createCookie now data => exact h e he
  | deleteCookie id => exact h e he
  | createActivityLog now data => exact h e he
  | updateActivityLog now id updates =>
    simp only [call, updateActivityLog] at he
    cases hg : s.activityLogs.get id <;> simp only [hg] at he <;> exact h e he

/-- A call that hands no `id` field to an update keeps the logs stored under
their own ids; every call keeps their property names distinct. -/
theorem call_logs_keyed (getTime : JSValue → Option Int) (s : MemStorage) (c : Call)
    (hc : c.keepsId = true)
    (h : ∀ e ∈ s.activityLogs, e.2.get "id" = e.1 ∧ e.2.DistinctKeys) :
    ∀ e ∈ (s.call getTime c).1.activityLogs, e.2.get "id" = e.1 ∧ e.2.DistinctKeys := by
  intro e he
  cases c with
  | createUser now data => exact h e he
  | deleteUser id =>
    simp only [call, deleteUser_eq] at he
    exact h e (JSMap.mem_of_mem_foldl_delete _ _ _ he)
  | createInstagramAccount now data => exact h e he
  | deleteInstagramAccount id =>
    simp only [call, deleteInstagramAccount_eq] at he
    exact h e he
  | createCookie now data => exact h e he
  | deleteCookie id => exact h e he
  | createActivityLog now data =>
    simp only [call, createActivityLog] at he
    rcases JSMap.mem_of_mem_set _ _ _ _ he with rfl | he
    · exact ⟨stamp_id _ _ _, JSObject.distinctKeys_stamp _ _ _⟩
    · exact h e he
  | updateActivityLog now id updates =>
    simp only [call, updateActivityLog] at he
    cases hg : s.activityLogs.get id with
    | none => simp only [hg] at he; exact h e he
    | some log =>
      simp only [hg] at he
      rcases JSMap.mem_of_mem_set _ _ _ _ he with rfl | he
      · obtain ⟨hid, hd⟩ := h (id, log) (JSMap.mem_of_get_some _ _ _ hg)
        have hno : ∀ x ∈ updates, x.1 ≠ "id" := by
          simpa [Call.keepsId] using hc
        refine ⟨?_, JSObject.distinctKeys_set _ _ _ (JSObject.distinctKeys_spread _ _
          (JSObject.distinctKeys_spread [] log List.nodup_nil))⟩
        show (((JSObject.spread [] log).spread updates).set "updatedAt" (.str now)).get "id" = id
        rw [JSObject.read_set_ne _ _ _ _ (by decide),
          JSObject.read_spread_of_not_mem _ updates "id" hno,
          JSObject.read_spread_nil log "id" hd]
        exact hid
      · exact h e he

end MemStorage

/-- Claim C20, as the store behaves.  In every store that a sequence of calls
builds from the store of the constructor, every user, account and cookie is
stored under the value of its own `id` field; so is every log, provided that no
`updateActivityLog` of the sequence was handed an `id` field. -/
theorem stored_records_carry_their_key (getTime : JSValue → Option Int) (cs : List Call) :
    (∀ e ∈ (MemStorage.new.calls getTime cs).1.users, e.2.get "id" = e.1) ∧
    (∀ e ∈ (MemStorage.new.calls getTime cs).1.instagramAccounts, e.2.get "id" = e.1) ∧
    (∀ e ∈ (MemStorage.new.calls getTime cs).1.cookies, e.2.get "id" = e.1) ∧
    ((∀ c ∈ cs, c.keepsId = true) →
      ∀ e ∈ (MemStorage.new.calls getTime cs).1.activityLogs, e.2.get "id" = e.1) := by
  induction cs using List.reverseRecOn with
  | nil =>
    refine ⟨?_, ?_, ?_, fun _ => ?_⟩ <;>
      exact fun e he => by simp [MemStorage.calls, MemStorage.new] at he
  | append_singleton cs c ih =>
    rw [MemStorage.calls_append_one]
    refine ⟨MemStorage.call_users_keyed _ _ _ ih.1, MemStorage.call_accounts_keyed _ _ _ ih.2.1,
      MemStorage.call_cookies_keyed _ _ _ ih.2.2.1, fun hkeep => ?_⟩
    have hlogs : ∀ cs' : List Call, (∀ c ∈ cs', c.keepsId = true) →
        ∀ e ∈ (MemStorage.new.calls getTime cs').1.activityLogs,
          e.2.get "id" = e.1 ∧ e.2.DistinctKeys := by
      intro cs'
      induction cs' using List.reverseRecOn with
      | nil => exact fun _ e he => by simp [MemStorage.calls, MemStorage.new] at he
      | append_singleton cs' c' ih' =>
        intro hk
        rw [MemStorage.calls_append_one]
        exact MemStorage.call_logs_keyed _ _ _ (hk c' (by simp))
          (ih' fun x hx => hk x (List.mem_append_left _ hx))
    have := hlogs (cs ++ [c]) hkeep
    rw [MemStorage.calls_append_one] at this
    exact fun e he => (this e he).1

/-- Claim C20, as stated, fails: after `createActivityLog` twice and
`updateActivityLog(1, { id: 2 })`, calls of the store methods on the store of
the constructor, the record stored under key 1 of the log table has the id
2. -/
theorem updated_log_loses_its_key :
    ∃ e ∈ crossedStore.activityLogs, e.1 = .num 1 ∧ e.2.get "id" = .num 2 ∧
      e.2.get "id" ≠ e.1 := by
  decide

/-! ### More invariants of the store

The tables have distinct keys, the cookies stand in the order of their ids, and
no account is ever stored, in every store that a sequence of calls builds from
the store of the constructor. -/

theorem JSMap.mem_keys_set (m : JSMap) (k : JSValue) (v : JSObject) (k' : JSValue)
    (h : k' ∈ (m.set k v).map Prod.fst) : k' = k ∨ k' ∈ m.map Prod.fst := by
  obtain ⟨e, he, rfl⟩ := List.mem_map.mp h
  rcases JSMap.mem_of_mem_set m k v e he with rfl | he
  · exact Or.inl rfl
  · exact Or.inr (List.mem_map.mpr ⟨e, he, rfl⟩)

theorem JSMap.nodup_keys_set (m : JSMap) (k : JSValue) (v : JSObject)
    (h : (m.map Prod.fst).Nodup) : ((m.set k v).map Prod.fst).Nodup := by
  induction m with
  | nil => simp [JSMap.set]
  | cons e rest ih =>
    obtain ⟨k₀, v₀⟩ := e
    simp only [List.map_cons, List.nodup_cons] at h
    by_cases h0 : k₀ = k
    · subst h0
      simpa [JSMap.set] using h
    · simp only [JSMap.set, h0, if_false, List.map_cons, List.nodup_cons]
      refine ⟨fun hmem => ?_, ih h.2⟩
      rcases JSMap.mem_keys_set rest k v k₀ hmem with h1 | h1
      · exact h0 h1
      · exact h.1 h1

theorem JSMap.delete_sublist (m : JSMap) (k : JSValue) : (m.delete k).Sublist m :=
  List.filter_sublist _

theorem JSMap.foldl_delete_sublist (l : List JSObject) (m : JSMap) :
    (l.foldl (fun acc r => acc.delete (r.get "id")) m).Sublist m := by
  induction l generalizing m with
  | nil => exact List.Sublist.refl _
  | cons r rest ih => exact (ih _).trans (JSMap.delete_sublist m _)

namespace MemStorage

theorem foldl_deleteAccount_cookies_sublist (l : List JSObject) (s : MemStorage) :
    (l.foldl (fun st a => st.deleteInstagramAccount (a.get "id")) s).cookies.Sublist
      s.cookies := by
  induction l generalizing s with
  | nil => exact List.Sublist.refl _
  | cons a rest ih =>
    rw [List.foldl_cons]
    refine (ih _).trans ?_
    rw [deleteInstagramAccount_eq]
    exact JSMap.foldl_delete_sublist _ _

/-- A call changes the cookie table in one of two ways: it leaves a part of it,
in the same order, or it is a `createCookie`. -/
theorem call_cookies (getTime : JSValue → Option Int) (s : MemStorage) (c : Call) :
    ((s.call getTime c).1.cookies.Sublist s.cookies ∧
      (s.call getTime c).1.cookieId = s.cookieId) ∨
    ∃ now data, (s.call getTime c).1.cookies =
        s.cookies.set (.num s.cookieId) (stamp data s.cookieId now) ∧
      (s.call getTime c).1.cookieId = s.cookieId + 1 := by
  cases c with
  | createUser now data => exact Or.inl ⟨List.Sublist.refl _, rfl⟩
  | deleteUser id =>
    refine Or.inl ⟨?_, deleteUser_counter s getTime id .cookies⟩
    simp only [call, deleteUser_eq]
    exact foldl_deleteAccount_cookies_sublist _ _
  | createInstagramAccount now data => exact Or.inl ⟨List.Sublist.refl _, rfl⟩
  | deleteInstagramAccount id =>
    refine Or.inl ⟨?_, ?_⟩
    · simp only [call, deleteInstagramAccount_eq]
      exact JSMap.foldl_delete_sublist _ _
    · simp only [call, deleteInstagramAccount_eq]
  | createCookie now data => exact Or.inr ⟨now, data, rfl, rfl⟩
  | deleteCookie id => exact Or.inl ⟨JSMap.delete_sublist _ _, rfl⟩
  | createActivityLog now data => exact Or.inl ⟨List.Sublist.refl _, rfl⟩
  | updateActivityLog now id updates =>
    refine Or.inl ?_
    simp only [call, updateActivityLog]
    cases s.activityLogs.get id <;> exact ⟨List.Sublist.refl _, rfl⟩

/-- Every call keeps the cookie table keyed by id, below the cookie counter and
in the order of the ids. -/
theorem call_cookies_ordered (getTime : JSValue → Option Int) (s : MemStorage) (c : Call)
    (hkeys : (s.cookies.map Prod.fst).Nodup)
    (hbelow : ∀ e ∈ s.cookies, ∃ a : Nat, e.1 = .num a ∧ e.2.get "id" = .num a ∧ a < s.cookieId)
    (hord : s.cookies.values.Pairwise IdBelow) :
    ((s.call getTime c).1.cookies.map Prod.fst).Nodup ∧
    (∀ e ∈ (s.call getTime c).1.cookies,
      ∃ a : Nat, e.1 = .num a ∧ e.2.get "id" = .num a ∧ a < (s.call getTime c).1.cookieId) ∧
    (s.call getTime c).1.cookies.values.Pairwise IdBelow := by
  rcases call_cookies getTime s c with ⟨hsub, hid⟩ | ⟨now, data, hset, hid⟩
  · refine ⟨hkeys.sublist (hsub.map _), fun e he => ?_, hord.sublist (hsub.map _)⟩
    rw [hid]
    exact hbelow e (hsub.subset he)
  · have hfresh : s.cookies.get (.num s.cookieId) = none :=
      JSMap.get_eq_none_of_forall_ne _ _ fun e he heq => by
        obtain ⟨a, ha, _, hlt⟩ := hbelow e he
        rw [ha] at heq
        simp only [JSValue.num.injEq, Nat.cast_inj] at heq
        omega
    rw [hset, hid]
    refine ⟨JSMap.nodup_keys_set _ _ _ hkeys, fun e he => ?_, ?_⟩
    · rcases JSMap.mem_of_mem_set _ _ _ _ he with rfl | he
      · exact ⟨s.cookieId, rfl, stamp_id _ _ _, Nat.lt_succ_self _⟩
      · obtain ⟨a, h1, h2, h3⟩ := hbelow e he
        exact ⟨a, h1, h2, Nat.lt_succ_of_lt h3⟩
    · rw [JSMap.set_of_get_none _ _ _ hfresh]
      simp only [JSMap.values, List.map_append, List.map_cons, List.map_nil]
      refine List.pairwise_append.mpr ⟨hord, List.pairwise_singleton _ _, fun a ha b hb => ?_⟩
      rw [List.mem_singleton] at hb
      subst hb
      obtain ⟨k, hk⟩ := (JSMap.mem_values_iff _ _).mp ha
      obtain ⟨i, _, h2, h3⟩ := hbelow (k, a) hk
      exact ⟨i, s.cookieId, h2, stamp_id _ _ _, by exact_mod_cast h3⟩

/-- Every call keeps the keys of the log table distinct. -/
theorem call_log_keys_nodup (getTime : JSValue → Option Int) (s : MemStorage) (c : Call)
    (h : (s.activityLogs.map Prod.fst).Nodup) :
    ((s.call getTime c).1.activityLogs.map Prod.fst).Nodup := by
  cases c with
  | createUser now data => exact h
  | deleteUser id =>
    simp only [call, deleteUser_eq]
    exact h.sublist ((JSMap.foldl_delete_sublist _ _).map _)
  | createInstagramAccount now data => exact h
  | deleteInstagramAccount id =>
    simp only [call, deleteInstagramAccount_eq]
    exact h
  | createCookie now data => exact h
  | deleteCookie id => exact h
  | createActivityLog now data => exact JSMap.nodup_keys_set _ _ _ h
  | updateActivityLog now id updates =>
    simp only [call, updateActivityLog]
    cases s.activityLogs.get id with
    | none => exact h
    | some log => exact JSMap.nodup_keys_set _ _ _ h

/-- No call stores an account. -/
theorem call_no_accounts (getTime : JSValue → Option Int) (s : MemStorage) (c : Call)
    (h : s.instagramAccounts = []) : (s.call getTime c).1.instagramAccounts = [] := by
  cases c with
  | createUser now data => exact h
  | deleteUser id =>
    simp only [call, deleteUser_eq]
    rw [foldl_deleteAccount_accounts]
    exact List.eq_nil_of_subset_nil
      (h ▸ (JSMap.foldl_delete_sublist _ s.instagramAccounts).subset)
  | createInstagramAccount now data => exact h
  | deleteInstagramAccount id =>
    simp only [call, deleteInstagramAccount_eq, h]
    rfl
  | createCookie now data => exact h
  | deleteCookie id => exact h
  | createActivityLog now data => exact h
  | updateActivityLog now id updates =>
    simp only [call, updateActivityLog]
    cases s.activityLogs.get id <;> exact h

/-- In every store that a sequence of calls builds from the store of the
constructor: the cookie table is keyed by id and in the order of the ids, the
keys of the log table are distinct, and the account table is empty, so that no
user has a cookie. -/
theorem calls_new_tables (getTime : JSValue → Option Int) (cs : List Call) :
    (MemStorage.new.calls getTime cs).1.cookies.KeyedById ∧
    (MemStorage.new.calls getTime cs).1.cookies.values.Pairwise IdBelow ∧
    ((MemStorage.new.calls getTime cs).1.activityLogs.map Prod.fst).Nodup ∧
    (MemStorage.new.calls getTime cs).1.instagramAccounts = [] ∧
    ∀ userId, (MemStorage.new.calls getTime cs).1.getCookiesByUserId userId = [] := by
  have key : ((MemStorage.new.calls getTime cs).1.cookies.map Prod.fst).Nodup ∧
      (∀ e ∈ (MemStorage.new.calls getTime cs).1.cookies, ∃ a : Nat, e.1 = .num a ∧
        e.2.get "id" = .num a ∧ a < (MemStorage.new.calls getTime cs).1.cookieId) ∧
      (MemStorage.new.calls getTime cs).1.cookies.values.Pairwise IdBelow ∧
      ((MemStorage.new.calls getTime cs).1.activityLogs.map Prod.fst).Nodup ∧
      (MemStorage.new.calls getTime cs).1.instagramAccounts = [] := by
    induction cs using List.reverseRecOn with
    | nil =>
      exact ⟨List.nodup_nil, fun e he => by simp [calls, MemStorage.new] at he,
        List.Pairwise.nil, List.nodup_nil, rfl⟩
    | append_singleton cs c ih =>
      rw [calls_append_one]
      obtain ⟨h1, h2, h3⟩ := call_cookies_ordered getTime _ c ih.1 ih.2.1 ih.2.2.1
      exact ⟨h1, h2, h3, call_log_keys_nodup getTime _ c ih.2.2.2.1,
        call_no_accounts getTime _ c ih.2.2.2.2⟩
  refine ⟨⟨key.1, fun e he => ?_⟩, key.2.2.1, key.2.2.2.1, key.2.2.2.2, fun userId => ?_⟩
  · obtain ⟨a, h1, h2, _⟩ := key.2.1 e he
    rw [h1, h2]
  · simp [getCookiesByUserId, getInstagramAccounts, key.2.2.2.2, JSMap.values]

end MemStorage

/-! ### More properties at the sample store -/

/-- Claim C12, as the handler behaves, at the sample store: user 1 asks to like
an address without `/p/`. -/
theorem postRun_invalid_post_url_witness :
    badLikeBody.get "type" = .str "like" ∧
    ("like" = "like" ∨ "like" = "unlike" ∨ "like" = "comment") ∧
    badLikeBody.get "postUrl" = .str "https://site/ABC123/" ∧
    "https://site/ABC123/" ≠ "" ∧
    jsIncludes "/p/".toList "https://site/ABC123/".toList = false ∧
    ("like" = "comment" → (badLikeBody.get "commentText").truthy = true) ∧
    sampleStore.getCookiesByUserId (.num 1) ≠ [] ∧
    sampleStore.getActivityLog (.num sampleStore.logId) = none ∧
    ∃ (row0 rowF : JSObject) (fn : String) (args : List JSValue) (o : Outcome),
      postRun (igAutomation sampleAxios sampleIg.followUser sampleIg.unfollowUser
          sampleIg.getInstagramProfileInfo) sampleStore (.num 1) badLikeBody "t1" "t2" =
        ({ sampleStore with
            logId := sampleStore.logId + 1
            activityLogs := sampleStore.activityLogs ++ [(.num sampleStore.logId, rowF)] },
          { status := 200, body := .result o },
          [.createActivityLog row0, .call fn args o,
            .updateActivityLog (.num sampleStore.logId) [("status", .str "failed")]]) ∧
      o.success = false ∧
      (∃ cookie0, (sampleStore.getCookiesByUserId (.num 1)).head? = some cookie0 ∧
        ("like" = "like" → fn = "likePost" ∧
          args = [.str "https://site/ABC123/", cookie0.get "cookieValue"] ∧
          likePost sampleAxios (.str "https://site/ABC123/") (cookie0.get "cookieValue") =
            (o, [])) ∧
        ("like" = "unlike" → fn = "unlikePost" ∧
          args = [.str "https://site/ABC123/", cookie0.get "cookieValue"] ∧
          unlikePost sampleAxios (.str "https://site/ABC123/") (cookie0.get "cookieValue") =
            (o, [])) ∧
        ("like" = "comment" → fn = "commentPost" ∧
          args = [.str "https://site/ABC123/", badLikeBody.get "commentText",
            cookie0.get "cookieValue"] ∧
          commentPost sampleAxios (.str "https://site/ABC123/")
            (badLikeBody.get "commentText") (cookie0.get "cookieValue") = (o, []))) ∧
      ((∀ c ∈ (sampleStore.getCookiesByUserId (.num 1)).head?,
          ∃ v, c.get "cookieValue" = .str v) →
        o.message = "Invalid post URL format") ∧
      row0.get "status" = .str "pending" ∧
      rowF.get "id" = .num sampleStore.logId ∧
      rowF.get "userId" = .num 1 ∧
      rowF.get "status" = .str "failed" :=
  ⟨by decide, Or.inl rfl, by decide, by decide, by decide, fun h => absurd h (by decide),
    by decide, by decide,
    postRun_invalid_post_url sampleAxios sampleIg.followUser sampleIg.unfollowUser
      sampleIg.getInstagramProfileInfo sampleStore (.num 1) badLikeBody "t1" "t2" "like"
      "https://site/ABC123/" (by decide) (Or.inl rfl) (by decide) (by decide) (by decide)
      (fun h => absurd h (by decide)) (by decide) (by decide)⟩

/-- Claim C14 at the sample store: user 1 asks to follow alice. -/
theorem postRun_keeps_existing_logs_witness :
    sampleStore.getActivityLog (.num sampleStore.logId) = none ∧
    ((∃ extra, (postRun sampleIg sampleStore (.num 1) followBody "t1" "t2").1.activityLogs =
        sampleStore.activityLogs ++ extra ∧ extra.length ≤ 1) ∧
    (∀ k row, sampleStore.getActivityLog k = some row →
      (postRun sampleIg sampleStore (.num 1) followBody "t1" "t2").1.getActivityLog k =
        some row) ∧
    (∀ id updates,
      Event.updateActivityLog id updates ∈
        (postRun sampleIg sampleStore (.num 1) followBody "t1" "t2").2.2 →
      sampleStore.getActivityLog id = none ∧
      ∃ row, Event.createActivityLog row ∈
          (postRun sampleIg sampleStore (.num 1) followBody "t1" "t2").2.2 ∧
        row.get "id" = id)) :=
  ⟨by decide,
    postRun_keeps_existing_logs sampleIg sampleStore (.num 1) followBody "t1" "t2" (by decide)⟩

/-- Claim C16 at the address "https://site/ABC123/". -/
theorem post_variants_invalid_url_witness :
    jsIncludes "/p/".toList "https://site/ABC123/".toList = false ∧
    (likePost sampleAxios (.str "https://site/ABC123/") (.str "csrftoken=abc") =
      ({ success := false, message := "Invalid post URL format" }, []) ∧
    unlikePost sampleAxios (.str "https://site/ABC123/") (.str "csrftoken=abc") =
      ({ success := false, message := "Invalid post URL format" }, []) ∧
    commentPost sampleAxios (.str "https://site/ABC123/") (.str "hello")
        (.str "csrftoken=abc") =
      ({ success := false, message := "Invalid post URL format" }, [])) :=
  ⟨by decide,
    post_variants_invalid_url sampleAxios "https://site/ABC123/" "csrftoken=abc" (.str "hello")
      (by decide)⟩

/-- Claim C17, as the handler behaves, at the sample store: user 1 asks for the
kind "duplicates". -/
theorem postRun_duplicates_succeeds_witness :
    duplicatesBody.get "type" = .str "duplicates" ∧
    sampleStore.getCookiesByUserId (.num 1) ≠ [] ∧
    sampleStore.getActivityLog (.num sampleStore.logId) = none ∧
    ∃ (row0 rowF : JSObject) (args : List JSValue) (o : Outcome),
      postRun (igAutomation sampleAxios sampleIg.followUser sampleIg.unfollowUser
          sampleIg.getInstagramProfileInfo) sampleStore (.num 1) duplicatesBody "t1" "t2" =
        ({ sampleStore with
            logId := sampleStore.logId + 1
            activityLogs := sampleStore.activityLogs ++ [(.num sampleStore.logId, rowF)] },
          { status := 200, body := .result o },
          [.createActivityLog row0, .call "removeDuplicateAccounts" args o,
            .updateActivityLog (.num sampleStore.logId) [("status", .str "success")]]) ∧
      o.success = true ∧
      (∀ cookieStr, removeDuplicateAccounts cookieStr = (o, [])) ∧
      row0.get "status" = .str "pending" ∧
      rowF.get "id" = .num sampleStore.logId ∧
      rowF.get "userId" = .num 1 ∧
      rowF.get "status" = .str "success" :=
  ⟨by decide, by decide, by decide,
    postRun_duplicates_succeeds sampleAxios sampleIg.followUser sampleIg.unfollowUser
      sampleIg.getInstagramProfileInfo sampleStore (.num 1) duplicatesBody "t1" "t2"
      (by decide) (by decide) (by decide)⟩

end IgBoost
